import Mathlib

/-!
Verification of the core of the Echoes of Xylos dungeon crawler
(`EchoesOfXylos.py`): item/skill catalog, player progression, traps,
save/load round-trips, enemy AI movement, the combat engine, and the
level generator (corridor connectivity and feature placement).

The Python source is shallowly embedded: Python `int` fields become `ℤ`
(or `ℕ` where the source only ever increments from a positive start,
e.g. the character level), Python `//` becomes `Int.fdiv`, dictionaries
become association lists, and every point where the game consumes
`random.*` or blocks on player input becomes an explicit argument (an
RNG stream, a coin stream, or a script of menu choices), so that every
theorem quantifies over all RNG streams and all input scripts.
Potentially non-terminating retry loops take a fuel argument and return
`Option`: `some` outcomes are exactly the executions the Python program
can complete.
-/

namespace Xylos

/-! ## Items (`Item`, `Weapon`, `Armor`, `Consumable`, `Collectible`) -/

/-- Effects of consumable items: the catalog only contains HP-restoring
and energy-restoring consumables (`HealthPotion._heal_effect` etc.). -/
inductive ConsumableEffect
  | healHp (amount : ℤ)
  | restoreEnergy (amount : ℤ)
deriving DecidableEq

/-- The variant tag of an item, mirroring the `Weapon`/`Armor`/
`Consumable`/`Collectible` subclasses with their variant-specific data
(`damage_bonus`, `defense_bonus`, `effect_func`). -/
inductive ItemKind
  | weapon (damageBonus : ℤ)
  | armor (defenseBonus : ℤ)
  | consumable (effect : ConsumableEffect)
  | collectible
deriving DecidableEq

/-- An item: `name`, `description`, the variant data, and `base_value`. -/
structure Item where
  name : String
  description : String
  kind : ItemKind
  baseValue : ℤ
deriving DecidableEq

/-- `damage_bonus` of a weapon (0 for non-weapons). -/
def Item.damageBonus (it : Item) : ℤ :=
  match it.kind with
  | ItemKind.weapon b => b
  | _ => 0

/-- `defense_bonus` of an armor (0 for non-armor). -/
def Item.defenseBonus (it : Item) : ℤ :=
  match it.kind with
  | ItemKind.armor b => b
  | _ => 0

def healthPotion : Item :=
  { name := "Health Potion", description := "Restores 50 HP.",
    kind := ItemKind.consumable (ConsumableEffect.healHp 50), baseValue := 20 }

def energyCell : Item :=
  { name := "Energy Cell", description := "Restores 25 HP.",
    kind := ItemKind.consumable (ConsumableEffect.healHp 25), baseValue := 15 }

def energyPack : Item :=
  { name := "Energy Pack", description := "Restores 40 Energy.",
    kind := ItemKind.consumable (ConsumableEffect.restoreEnergy 40), baseValue := 25 }

def energyCrystal : Item :=
  { name := "Energy Crystal", description := "A shimmering crystal, vital for your mission.",
    kind := ItemKind.collectible, baseValue := 100 }

def laserPistol : Item :=
  { name := "Laser Pistol", description := "A standard issue energy weapon.",
    kind := ItemKind.weapon 5, baseValue := 30 }

def plasmaRifle : Item :=
  { name := "Plasma Rifle", description := "A powerful, high-energy rifle.",
    kind := ItemKind.weapon 10, baseValue := 60 }

def scrapArmor : Item :=
  { name := "Scrap Armor", description := "Crude armor made from salvaged parts.",
    kind := ItemKind.armor 3, baseValue := 25 }

def reinforcedVest : Item :=
  { name := "Reinforced Vest", description := "A sturdy vest offering decent protection.",
    kind := ItemKind.armor 7, baseValue := 50 }

/-- The global item registry `ALL_ITEM_CLASSES` (a name-keyed dict of
constructors in the source; here a name-to-item lookup). -/
def ALL_ITEM_CLASSES (n : String) : Option Item :=
  if n = "Health Potion" then some healthPotion
  else if n = "Energy Cell" then some energyCell
  else if n = "Energy Pack" then some energyPack
  else if n = "Energy Crystal" then some energyCrystal
  else if n = "Laser Pistol" then some laserPistol
  else if n = "Plasma Rifle" then some plasmaRifle
  else if n = "Scrap Armor" then some scrapArmor
  else if n = "Reinforced Vest" then some reinforcedVest
  else none

/-! ## Skills -/

/-- The six skill effect functions (`_soldier_power_shot_effect` etc.),
as a closed enumeration. In the source each `Skill` stores the effect
as a first-class function; every `Skill` the program ever constructs
comes from the fixed class/level table or from `ALL_SKILL_DATA`, so the
effect is determined by this tag. -/
inductive SkillEffect
  | powerShot
  | repairDrone
  | burstOfSpeed
  | grenadeToss
  | shieldMatrix
  | stealthField
deriving DecidableEq

/-- A skill: `name`, `description`, `energy_cost`, and effect. -/
structure Skill where
  name : String
  description : String
  energyCost : ℤ
  effect : SkillEffect
deriving DecidableEq

def powerShotSkill : Skill :=
  { name := "Power Shot", description := "Deals extra damage to an enemy.",
    energyCost := 15, effect := SkillEffect.powerShot }

def repairDroneSkill : Skill :=
  { name := "Repair Drone", description := "Summons a drone to restore your HP.",
    energyCost := 20, effect := SkillEffect.repairDrone }

def burstOfSpeedSkill : Skill :=
  { name := "Burst of Speed", description := "Temporarily increases your speed in combat.",
    energyCost := 10, effect := SkillEffect.burstOfSpeed }

def grenadeTossSkill : Skill :=
  { name := "Grenade Toss", description := "Throws a grenade, damaging all enemies.",
    energyCost := 30, effect := SkillEffect.grenadeToss }

def shieldMatrixSkill : Skill :=
  { name := "Shield Matrix", description := "Deploys a temporary shield, increasing defense.",
    energyCost := 25, effect := SkillEffect.shieldMatrix }

def stealthFieldSkill : Skill :=
  { name := "Stealth Field", description := "Activates a stealth field, increasing defense and evasion.",
    energyCost := 35, effect := SkillEffect.stealthField }

/-- The global skill registry `ALL_SKILL_DATA`: name, cost, effect,
description. -/
def ALL_SKILL_DATA (n : String) : Option Skill :=
  if n = "Power Shot" then some powerShotSkill
  else if n = "Repair Drone" then some repairDroneSkill
  else if n = "Burst of Speed" then some burstOfSpeedSkill
  else if n = "Grenade Toss" then some grenadeTossSkill
  else if n = "Shield Matrix" then some shieldMatrixSkill
  else if n = "Stealth Field" then some stealthFieldSkill
  else none

/-! ## Entities (`GameEntity`, `Player`, `Enemy`) -/

/-- The player (`Player(GameEntity)`). The character level is `ℕ`: the
source initializes it to 1 and only ever increments it. -/
structure Player where
  name : String
  maxHp : ℤ
  hp : ℤ
  attack : ℤ
  defense : ℤ
  speed : ℤ
  level : ℕ
  classType : String
  inventory : List Item
  equippedWeapon : Option Item
  equippedArmor : Option Item
  xp : ℤ
  xpToNextLevel : ℤ
  learnedSkills : List Skill
  maxEnergy : ℤ
  energy : ℤ
  credits : ℤ
  crystalsCollected : ℤ
  x : ℤ
  y : ℤ
deriving DecidableEq

/-- An enemy (`Enemy(GameEntity)`). -/
structure Enemy where
  name : String
  maxHp : ℤ
  hp : ℤ
  attack : ℤ
  defense : ℤ
  speed : ℤ
  xpValue : ℤ
  creditValue : ℤ
  itemDrop : Option Item
  symbol : Char
  x : ℤ
  y : ℤ
deriving DecidableEq

/-- `GameEntity.is_alive`: `hp > 0`. -/
def Player.isAlive (p : Player) : Bool := 0 < p.hp

/-- `GameEntity.is_alive`: `hp > 0`. -/
def Enemy.isAlive (e : Enemy) : Bool := 0 < e.hp

/-- `GameEntity.take_damage`: subtract, clamp at 0. -/
def Player.takeDamage (p : Player) (damage : ℤ) : Player :=
  let hp := p.hp - damage
  { p with hp := if hp < 0 then 0 else hp }

/-- `GameEntity.take_damage`: subtract, clamp at 0. -/
def Enemy.takeDamage (e : Enemy) (damage : ℤ) : Enemy :=
  let hp := e.hp - damage
  { e with hp := if hp < 0 then 0 else hp }

/-- The damage formula of `GameEntity.attack_target`:
`max(0, attacker.attack - defender.defense)`. -/
def attackDamage (attack defense : ℤ) : ℤ := max 0 (attack - defense)

/-! ## Progression (`Player.add_xp`, `Player.level_up`) -/

/-- `XP_TO_LEVEL_UP_BASE * XP_LEVEL_MULTIPLIER ** (level - 1)` truncated
with `int(...)`, i.e. `floor(50 * 1.5 ^ (level - 1))`, computed exactly
over the rationals as `50 * 3^(level-1) / 2^(level-1)` with natural
division. (The Python float computation is exact for every level the
game can reach: `50 * 3^k` fits in a double mantissa for `k ≤ 30`.) -/
def xpThreshold (level : ℕ) : ℤ :=
  ((50 * 3 ^ (level - 1)) / 2 ^ (level - 1) : ℕ)

/-- `any(s.name == n for s in learned_skills)`. -/
def hasSkill (p : Player) (n : String) : Bool :=
  p.learnedSkills.any fun s => s.name == n

/-- The class/level skill-unlock table at the end of `Player.level_up`:
each class unlocks one fixed skill on reaching level 2 and one on
reaching level 5, guarded against duplicates. -/
def unlockSkills (p : Player) : Player :=
  if p.classType = "soldier" then
    let p1 := if p.level = 2 ∧ hasSkill p "Power Shot" = false then
      { p with learnedSkills := p.learnedSkills ++ [powerShotSkill] } else p
    if p1.level = 5 ∧ hasSkill p1 "Grenade Toss" = false then
      { p1 with learnedSkills := p1.learnedSkills ++ [grenadeTossSkill] } else p1
  else if p.classType = "engineer" then
    let p1 := if p.level = 2 ∧ hasSkill p "Repair Drone" = false then
      { p with learnedSkills := p.learnedSkills ++ [repairDroneSkill] } else p
    if p1.level = 5 ∧ hasSkill p1 "Shield Matrix" = false then
      { p1 with learnedSkills := p1.learnedSkills ++ [shieldMatrixSkill] } else p1
  else if p.classType = "scout" then
    let p1 := if p.level = 2 ∧ hasSkill p "Burst of Speed" = false then
      { p with learnedSkills := p.learnedSkills ++ [burstOfSpeedSkill] } else p
    if p1.level = 5 ∧ hasSkill p1 "Stealth Field" = false then
      { p1 with learnedSkills := p1.learnedSkills ++ [stealthFieldSkill] } else p1
  else p

/-- `Player.level_up`: `level += 1`, `max_hp += 15` and fully heal,
`attack += 3`, `defense += 2`, `speed += 1`, `max_energy += 10` and
fully restore, `xp -= xp_to_next_level`, recompute `xp_to_next_level`,
then unlock class skills. -/
def levelUp (p : Player) : Player :=
  unlockSkills
    { p with
      level := p.level + 1,
      maxHp := p.maxHp + 15,
      hp := p.maxHp + 15,
      attack := p.attack + 3,
      defense := p.defense + 2,
      speed := p.speed + 1,
      maxEnergy := p.maxEnergy + 10,
      energy := p.maxEnergy + 10,
      xp := p.xp - p.xpToNextLevel,
      xpToNextLevel := xpThreshold (p.level + 1) }

/-- `Player.add_xp`: `xp += amount`; **if** (not while) the total meets
the threshold, call `level_up` once. -/
def addXp (p : Player) (amount : ℤ) : Player :=
  let p1 : Player := { p with xp := p.xp + amount }
  if p1.xpToNextLevel ≤ p1.xp then levelUp p1 else p1

/-! ## Equipment and consumables -/

/-- `Player.equip_item`: for a weapon, push any currently equipped
weapon back into the inventory and subtract its bonus, then equip the
new one and add its bonus; symmetrically for armor; other items are not
equippable. -/
def equipItem (p : Player) (it : Item) : Player :=
  match it.kind with
  | ItemKind.weapon b =>
    let p1 := match p.equippedWeapon with
      | some old => { p with inventory := p.inventory ++ [old],
                             attack := p.attack - old.damageBonus }
      | none => p
    { p1 with equippedWeapon := some it, attack := p1.attack + b }
  | ItemKind.armor b =>
    let p1 := match p.equippedArmor with
      | some old => { p with inventory := p.inventory ++ [old],
                             defense := p.defense - old.defenseBonus }
      | none => p
    { p1 with equippedArmor := some it, defense := p1.defense + b }
  | _ => p

/-- `Player.use_item` on a consumable: apply its effect
(`min(max, current + n)` restoration), then remove the item from the
inventory (`remove` deletes the first occurrence; removing an absent
item is a no-op, matching the `if item in self.inventory` guard). -/
def useConsumable (p : Player) (it : Item) : Player :=
  match it.kind with
  | ItemKind.consumable eff =>
    let p1 := match eff with
      | ConsumableEffect.healHp n => { p with hp := min p.maxHp (p.hp + n) }
      | ConsumableEffect.restoreEnergy n => { p with energy := min p.maxEnergy (p.energy + n) }
    { p1 with inventory := p1.inventory.erase it }
  | _ => p

/-! ## Traps (`Trap`, `Game.move_player` trap handling) -/

/-- `TRAP_DAMAGE_BASE`. -/
def TRAP_DAMAGE_BASE : ℤ := 15

/-- A hidden trap. -/
structure Trap where
  x : ℤ
  y : ℤ
  damage : ℤ
  triggered : Bool
deriving DecidableEq

/-- `Trap.trigger`: a no-op when already triggered; otherwise mark
triggered, and apply the damage unless the player is a scout. -/
def Trap.trigger (t : Trap) (p : Player) : Trap × Player :=
  if t.triggered then (t, p)
  else
    let t1 : Trap := { t with triggered := true }
    if p.classType = "scout" then (t1, p)
    else (t1, p.takeDamage t.damage)

/-- Lookup in `traps_on_map` (a position-keyed dict, modelled as an
association list with unique keys). -/
def trapsLookup (ts : List ((ℤ × ℤ) × Trap)) (q : ℤ × ℤ) : Option Trap :=
  (ts.find? fun kv => kv.1 = q).map fun kv => kv.2

/-- `del traps_on_map[(x, y)]`. -/
def trapsErase (ts : List ((ℤ × ℤ) × Trap)) (q : ℤ × ℤ) : List ((ℤ × ℤ) × Trap) :=
  ts.filter fun kv => kv.1 ≠ q

/-- The trap-handling fragment of `Game.move_player`: when the
destination holds an untriggered trap, trigger it against the player
and delete it from `traps_on_map` (the deletion is unconditional on the
player's class). -/
def movePlayerTrapStep (ts : List ((ℤ × ℤ) × Trap)) (q : ℤ × ℤ) (p : Player) :
    List ((ℤ × ℤ) × Trap) × Player :=
  match trapsLookup ts q with
  | none => (ts, p)
  | some t =>
    if t.triggered = false then
      (trapsErase ts q, (t.trigger p).2)
    else (ts, p)

/-! ## Persistence (`Game.save_game`, `Game.load_game`) -/

/-- The persisted record written by `Game.save_game`: the current floor
index plus all player fields, with items and skills stored by name. -/
structure SaveRecord where
  currentLevelNum : ℕ
  name : String
  hp : ℤ
  maxHp : ℤ
  attack : ℤ
  defense : ℤ
  speed : ℤ
  level : ℕ
  xp : ℤ
  xpToNextLevel : ℤ
  classType : String
  maxEnergy : ℤ
  energy : ℤ
  credits : ℤ
  crystalsCollected : ℤ
  x : ℤ
  y : ℤ
  inventory : List String
  equippedWeapon : Option String
  equippedArmor : Option String
  learnedSkills : List String
deriving DecidableEq

/-- `Game.save_game`: serialize the floor index and the player, items
and skills by name. -/
def saveGame (currentLevelNum : ℕ) (p : Player) : SaveRecord :=
  { currentLevelNum := currentLevelNum,
    name := p.name, hp := p.hp, maxHp := p.maxHp,
    attack := p.attack, defense := p.defense, speed := p.speed,
    level := p.level, xp := p.xp, xpToNextLevel := p.xpToNextLevel,
    classType := p.classType, maxEnergy := p.maxEnergy, energy := p.energy,
    credits := p.credits, crystalsCollected := p.crystalsCollected,
    x := p.x, y := p.y,
    inventory := p.inventory.map Item.name,
    equippedWeapon := p.equippedWeapon.map Item.name,
    equippedArmor := p.equippedArmor.map Item.name,
    learnedSkills := p.learnedSkills.map Skill.name }

/-- `Game.load_game`: rebuild the player from the record; inventory
items, equipped items and skills are reconstructed by catalog lookup,
with unknown names skipped (a warning in the source). The floor itself
is regenerated, not restored. -/
def loadGame (rec : SaveRecord) : ℕ × Player :=
  (rec.currentLevelNum,
   { name := rec.name, maxHp := rec.maxHp, hp := rec.hp,
     attack := rec.attack, defense := rec.defense, speed := rec.speed,
     level := rec.level, classType := rec.classType,
     inventory := rec.inventory.filterMap ALL_ITEM_CLASSES,
     equippedWeapon := rec.equippedWeapon.bind ALL_ITEM_CLASSES,
     equippedArmor := rec.equippedArmor.bind ALL_ITEM_CLASSES,
     xp := rec.xp, xpToNextLevel := rec.xpToNextLevel,
     learnedSkills := rec.learnedSkills.filterMap ALL_SKILL_DATA,
     maxEnergy := rec.maxEnergy, energy := rec.energy,
     credits := rec.credits, crystalsCollected := rec.crystalsCollected,
     x := rec.x, y := rec.y })

/-! ## Enemy AI (the enemy-turn block of `Game.main_game_loop`) -/

/-- `self.tiles[y][x]`, with out-of-range access defaulting to a wall
(the source always bounds-checks before indexing). -/
def tileAt (tiles : List (List Char)) (x y : ℤ) : Char :=
  (tiles.getD y.toNat []).getD x.toNat '#'

/-- One-axis pursuit step: `+1` toward the player, `-1` away-side, `0`
when aligned (the two `if/elif` pairs in the enemy-move block). -/
def stepToward (target cur : ℤ) : ℤ :=
  if target > cur then cur + 1 else if target < cur then cur - 1 else cur

/-- The `can_move` test of the enemy-move block: in bounds, not a wall,
not occupied by another living enemy, and not the player's tile. -/
def enemyCanMove (width height : ℤ) (tiles : List (List Char)) (p : Player)
    (others : List Enemy) (nx ny : ℤ) : Prop :=
  (0 ≤ nx ∧ nx < width ∧ 0 ≤ ny ∧ ny < height) ∧
  tileAt tiles nx ny ≠ '#' ∧
  (∀ o ∈ others, ¬ (o.isAlive = true ∧ o.x = nx ∧ o.y = ny)) ∧
  ¬ (nx = p.x ∧ ny = p.y)

instance (width height : ℤ) (tiles : List (List Char)) (p : Player)
    (others : List Enemy) (nx ny : ℤ) :
    Decidable (enemyCanMove width height tiles p others nx ny) := by
  unfold enemyCanMove; infer_instance

/-- One enemy's turn outside combat: attack when orthogonally adjacent
(`(|Δx|, |Δy|)` exactly `(1,0)` or `(0,1)`), otherwise step one tile
toward the player on both axes simultaneously, rejecting invalid
destinations. `others` are the other entities of the floor list. -/
def enemyTurn (width height : ℤ) (tiles : List (List Char)) (p : Player)
    (others : List Enemy) (e : Enemy) : Enemy × Player :=
  if e.isAlive then
    let dx := (e.x - p.x).natAbs
    let dy := (e.y - p.y).natAbs
    if (dx = 1 ∧ dy = 0) ∨ (dx = 0 ∧ dy = 1) then
      (e, p.takeDamage (attackDamage e.attack p.defense))
    else
      let nx := stepToward p.x e.x
      let ny := stepToward p.y e.y
      if enemyCanMove width height tiles p others nx ny then
        ({ e with x := nx, y := ny }, p)
      else (e, p)
  else (e, p)

/-! ## Combat skills (`handle_skills`, the skill effect functions) -/

/-- `aoe_damage` of `_soldier_grenade_toss_effect`:
`player.attack // 3 + 10` (Python floor division). -/
def aoeDamage (p : Player) : ℤ := Int.fdiv p.attack 3 + 10

/-- One enemy hit by the grenade: alive enemies take
`max(0, aoe_damage - defense)`, dead ones are skipped. -/
def grenadeHit (p : Player) (e : Enemy) : Enemy :=
  if e.isAlive then e.takeDamage (max 0 (aoeDamage p - e.defense)) else e

/-- `_soldier_grenade_toss_effect` over a list of enemies. -/
def grenadeTossEffect (p : Player) (enemies : List Enemy) : List Enemy :=
  enemies.map (grenadeHit p)

/-- The six skill effect functions, applied to the player, the engaged
enemy and the other enemies on the floor. In the source the engaged
enemy is an element of the floor's entity list; here it is held apart,
so the grenade hits it and the `others` alike. -/
def applySkill (eff : SkillEffect) (p : Player) (enemy : Enemy)
    (others : List Enemy) : Player × Enemy × List Enemy :=
  match eff with
  | SkillEffect.powerShot =>
    if enemy.isAlive then
      (p, enemy.takeDamage (max 0 (p.attack + Int.fdiv p.attack 2 - enemy.defense)), others)
    else (p, enemy, others)
  | SkillEffect.repairDrone =>
    ({ p with hp := min p.maxHp (p.hp + (30 + (p.level : ℤ) * 2)) }, enemy, others)
  | SkillEffect.burstOfSpeed =>
    ({ p with speed := p.speed + 5 }, enemy, others)
  | SkillEffect.shieldMatrix =>
    ({ p with defense := p.defense + 10 }, enemy, others)
  | SkillEffect.stealthField =>
    ({ p with defense := p.defense + 5, speed := p.speed + 3 }, enemy, others)
  | SkillEffect.grenadeToss =>
    (p, grenadeHit p enemy, grenadeTossEffect p others)

/-- `Skill.use` followed by the post-grenade pruning in
`handle_skills`: after `Grenade Toss` (and only then) the floor's
entity list is filtered to the still-alive enemies. (The source
dispatches on `skill.name == "Grenade Toss"`; every skill the program
constructs has that name exactly when its effect is the grenade
effect.) -/
def resolveSkill (sk : Skill) (p : Player) (enemy : Enemy)
    (others : List Enemy) : Player × Enemy × List Enemy :=
  let res := applySkill sk.effect p enemy others
  match sk.effect with
  | SkillEffect.grenadeToss => (res.1, res.2.1, res.2.2.filter Enemy.isAlive)
  | _ => res

/-- A menu input inside `handle_skills`: back out, or pick index `i`
(already converted from the 1-based on-screen number). -/
inductive SkillChoice
  | back
  | pick (i : ℕ)

/-- The input loop of `Game.handle_skills`: back out returns `False`
(turn not consumed); an invalid index or insufficient energy re-prompts
(recurse on the remaining script); a valid, affordable pick debits the
energy cost, applies the skill and returns `True`. `none` means the
script ran out while the menu still awaited input. -/
def handleSkillsLoop (p : Player) (enemy : Enemy) (others : List Enemy) :
    List SkillChoice → Option (Bool × Player × Enemy × List Enemy)
  | [] => none
  | SkillChoice.back :: _ => some (false, p, enemy, others)
  | SkillChoice.pick i :: rest =>
    match p.learnedSkills[i]? with
    | none => handleSkillsLoop p enemy others rest
    | some sk =>
      if sk.energyCost ≤ p.energy then
        some (true, resolveSkill sk { p with energy := p.energy - sk.energyCost } enemy others)
      else handleSkillsLoop p enemy others rest

/-- `Game.handle_skills`: immediately `False` with no skills learned,
otherwise run the menu loop. -/
def handleSkills (p : Player) (enemy : Enemy) (others : List Enemy)
    (choices : List SkillChoice) : Option (Bool × Player × Enemy × List Enemy) :=
  if p.learnedSkills = [] then some (false, p, enemy, others)
  else handleSkillsLoop p enemy others choices

/-! ## Combat inventory (`handle_inventory`) -/

/-- A menu input inside `handle_inventory`. -/
inductive InvChoice
  | back
  | pick (i : ℕ)

/-- The input loop of `Game.handle_inventory` (combat path): back out
returns `False`; invalid indices, collectibles and already-equipped
equipment re-prompt; a consumable is used and the turn consumed;
a weapon or armor is equipped (the old piece returns to the inventory)
and removed from the inventory slot it was picked from. Python compares
`item == equipped` by object identity; catalog items are plain data, so
structural equality stands in for identity here. -/
def handleInventoryLoop (p : Player) : List InvChoice → Option (Bool × Player)
  | [] => none
  | InvChoice.back :: _ => some (false, p)
  | InvChoice.pick i :: rest =>
    match p.inventory[i]? with
    | none => handleInventoryLoop p rest
    | some it =>
      match it.kind with
      | ItemKind.consumable _ => some (true, useConsumable p it)
      | ItemKind.collectible => handleInventoryLoop p rest
      | ItemKind.weapon _ =>
        if p.equippedWeapon = some it then handleInventoryLoop p rest
        else
          let p1 := equipItem p it
          some (true, { p1 with inventory := p1.inventory.eraseIdx i })
      | ItemKind.armor _ =>
        if p.equippedArmor = some it then handleInventoryLoop p rest
        else
          let p1 := equipItem p it
          some (true, { p1 with inventory := p1.inventory.eraseIdx i })

/-- `Game.handle_inventory`: immediately `False` with an empty
inventory, otherwise run the menu loop. -/
def handleInventory (p : Player) (choices : List InvChoice) : Option (Bool × Player) :=
  if p.inventory = [] then some (false, p)
  else handleInventoryLoop p choices

/-! ## The combat round (`Game.combat_round`) -/

/-- One player decision inside combat, with its whole menu interaction
and (for fleeing) the RNG outcome folded in: `fleeAttempt success`
stands for one `random.random() < flee_chance` draw. (On a successful
flee the source also relocates the player to a random adjacent floor
tile; that only moves `player.x/y`, which no combat property below
depends on, and the flee succeeds whether or not a tile is free.) -/
inductive CombatAction
  | attack
  | inventoryMenu (choices : List InvChoice)
  | fleeAttempt (success : Bool)
  | skillMenu (choices : List SkillChoice)

/-- Result of the player's slot within a round: combat continues, or
the player fled (terminal). -/
inductive SlotResult
  | cont (p : Player) (e : Enemy) (others : List Enemy)
  | fled (p : Player) (e : Enemy) (others : List Enemy)

/-- The player's slot in a combat round. Backing out of the inventory
or skill menu falls through to the next combatant (the `continue` in
the source advances the `for combatant` loop), so it also yields
`cont` with the state unchanged. -/
def playerSlot (p : Player) (e : Enemy) (others : List Enemy) :
    CombatAction → Option SlotResult
  | CombatAction.attack =>
    some (SlotResult.cont p (e.takeDamage (attackDamage p.attack e.defense)) others)
  | CombatAction.inventoryMenu choices =>
    match handleInventory p choices with
    | none => none
    | some (_, p1) => some (SlotResult.cont p1 e others)
  | CombatAction.fleeAttempt success =>
    if success then some (SlotResult.fled p e others)
    else some (SlotResult.cont p e others)
  | CombatAction.skillMenu choices =>
    match handleSkills p e others choices with
    | none => none
    | some (_, p1, e1, os1) => some (SlotResult.cont p1 e1 os1)

/-- The `while` loop of `Game.combat_round`. Each round sorts the two
combatants by descending speed (Python's stable sort puts the player
first on ties), runs the player's slot and the enemy's plain attack,
skipping a slot as soon as either side is dead. Returns the state at
loop exit together with whether the exit was a successful flee; `none`
when the fuel or the action script ran out first. -/
def combatLoop : ℕ → Player → Enemy → List Enemy → List CombatAction →
    Option (Player × Enemy × List Enemy × Bool)
  | 0, _, _, _, _ => none
  | fuel + 1, p, e, others, script =>
    if p.isAlive = true ∧ e.isAlive = true then
      if e.speed ≤ p.speed then
        match script with
        | [] => none
        | a :: rest =>
          match playerSlot p e others a with
          | none => none
          | some (SlotResult.fled p1 e1 os1) => some (p1, e1, os1, true)
          | some (SlotResult.cont p1 e1 os1) =>
            if p1.isAlive = true ∧ e1.isAlive = true then
              combatLoop fuel (p1.takeDamage (attackDamage e1.attack p1.defense)) e1 os1 rest
            else combatLoop fuel p1 e1 os1 rest
      else
        let p1 := p.takeDamage (attackDamage e.attack p.defense)
        if p1.isAlive = true ∧ e.isAlive = true then
          match script with
          | [] => none
          | a :: rest =>
            match playerSlot p1 e others a with
            | none => none
            | some (SlotResult.fled p2 e2 os2) => some (p2, e2, os2, true)
            | some (SlotResult.cont p2 e2 os2) => combatLoop fuel p2 e2 os2 rest
        else combatLoop fuel p1 e others script
    else some (p, e, others, false)

/-- The overall state after a combat. `entities` is the floor's entity
list (with the engaged enemy re-included when it survives, mirroring
that in the source it sits inside `current_map.entities`). -/
structure CombatOutcome where
  player : Player
  enemy : Enemy
  entities : List Enemy
  gameOver : Bool
deriving DecidableEq

/-- The exit sequence of `Game.combat_round`: restore the player's
speed and defense to the values snapshot at combat entry; then, if the
player died, game over; if the engaged enemy died, award its XP (via
`add_xp`), credits and item drop and prune dead enemies from the entity
list. -/
def combatEnd (speed0 defense0 : ℤ) (p : Player) (e : Enemy)
    (others : List Enemy) (_fled : Bool) : CombatOutcome :=
  let p1 : Player := { p with speed := speed0, defense := defense0 }
  if p1.isAlive = false then
    { player := p1, enemy := e, entities := e :: others, gameOver := true }
  else if e.isAlive = false then
    let p2 := addXp p1 e.xpValue
    let p3 : Player := { p2 with credits := p2.credits + e.creditValue }
    let p4 : Player := match e.itemDrop with
      | some it => { p3 with inventory := p3.inventory ++ [it] }
      | none => p3
    { player := p4, enemy := e, entities := others.filter Enemy.isAlive,
      gameOver := false }
  else
    { player := p1, enemy := e, entities := e :: others, gameOver := false }

/-- `Game.combat_round`: snapshot entry speed and defense, run the
combat loop, then apply the exit sequence. -/
def combatRound (fuel : ℕ) (p : Player) (e : Enemy) (others : List Enemy)
    (script : List CombatAction) : Option CombatOutcome :=
  (combatLoop fuel p e others script).map fun r =>
    combatEnd p.speed p.defense r.1 r.2.1 r.2.2.1 r.2.2.2

/-! ## Level generation: rooms and corridors (`GameMap.generate_map`,
steps 1 and 2) -/

/-- A grid position `(x, y)`. -/
abbrev Pos := ℕ × ℕ

/-- A placed room rectangle (`{'x1': x, 'y1': y, 'x2': x + w, 'y2': y + h}`).
Carved tiles span `x1 ≤ x < x2`, `y1 ≤ y < y2`. -/
structure Room where
  x1 : ℕ
  y1 : ℕ
  x2 : ℕ
  y2 : ℕ
deriving DecidableEq

/-- `(room['x1'] + room['x2']) // 2`. -/
def Room.centerX (r : Room) : ℕ := (r.x1 + r.x2) / 2

/-- `(room['y1'] + room['y2']) // 2`. -/
def Room.centerY (r : Room) : ℕ := (r.y1 + r.y2) / 2

/-- The tiles carved for a room (the double `for` loop over
`range(y1, y2) × range(x1, x2)`). -/
def inRoom (r : Room) (p : Pos) : Prop :=
  r.x1 ≤ p.1 ∧ p.1 < r.x2 ∧ r.y1 ≤ p.2 ∧ p.2 < r.y2

instance (r : Room) (p : Pos) : Decidable (inRoom r p) := by
  unfold inRoom; infer_instance

/-- The L-shaped corridor carved between the centers of two consecutive
rooms: a horizontal run at the first room's center row, then a vertical
run at the second room's center column (both ranges inclusive of their
endpoints). -/
def inCorridor (r1 r2 : Room) (p : Pos) : Prop :=
  (p.2 = r1.centerY ∧ min r1.centerX r2.centerX ≤ p.1 ∧ p.1 ≤ max r1.centerX r2.centerX) ∨
  (p.1 = r2.centerX ∧ min r1.centerY r2.centerY ≤ p.2 ∧ p.2 ≤ max r1.centerY r2.centerY)

instance (r1 r2 : Room) (p : Pos) : Decidable (inCorridor r1 r2 p) := by
  unfold inCorridor; infer_instance

/-- The consecutive pairs `(rooms[i], rooms[i+1])` connected by
corridors. -/
def consecutivePairs (rs : List Room) : List (Room × Room) := rs.zip rs.tail

/-- The set of floor tiles carved by steps 1 and 2 of
`GameMap.generate_map` for a given accepted-room list: room interiors
plus the corridors between consecutive rooms. -/
def carved (rs : List Room) (p : Pos) : Prop :=
  (∃ r ∈ rs, inRoom r p) ∨ ∃ pr ∈ consecutivePairs rs, inCorridor pr.1 pr.2 p

instance (rs : List Room) (p : Pos) : Decidable (carved rs p) := by
  unfold carved; infer_instance

/-- 4-directional adjacency of grid positions. -/
def adjacentPos (p q : Pos) : Prop :=
  (p.1 = q.1 ∧ (p.2 + 1 = q.2 ∨ q.2 + 1 = p.2)) ∨
  (p.2 = q.2 ∧ (p.1 + 1 = q.1 ∨ q.1 + 1 = p.1))

/-- One 4-directional move between two tiles of the region `S`. -/
def stepIn (S : Pos → Prop) (p q : Pos) : Prop := S p ∧ S q ∧ adjacentPos p q

/-- Reachability inside the region `S` by 4-directional moves. -/
def reachIn (S : Pos → Prop) : Pos → Pos → Prop :=
  Relation.ReflTransGen (stepIn S)

/-- Reachability over the carved floor tiles of a generated map. -/
def reachableOnMap (rs : List Room) : Pos → Pos → Prop := reachIn (carved rs)

/-! ## Level generation: feature placement (`GameMap.generate_map`,
step 3)

Each `random.choice(empty_tiles)` draw is modelled by consuming one
number `r` from an RNG stream and picking index `r % len(pool)`;
`empty_tiles.remove(...)` is `List.erase`. The counts that the source
derives from the pool size and from `random.randint`
(`num_traps = int(len(empty_tiles) * TRAP_SPAWN_CHANCE)`, a float
product, `num_enemies = randint(1, MAX_ENEMIES_PER_LEVEL)`,
`num_items = randint(0, MAX_ITEMS_PER_LEVEL)`, `randint(0, 2)` crystal
attempts) enter as explicit parameters, so the theorems cover every
count those draws can produce. The `random.random() < crystal_spawn_chance`
coin of each crystal attempt is a `Bool` stream. -/

/-- `random.choice(pool)` driven by one RNG number. -/
def choosePos (pool : List Pos) (r : ℕ) : Pos := pool.getD (r % pool.length) (0, 0)

/-- The start/exit separation test:
`abs(Δx) > width // 4 or abs(Δy) > height // 4`. -/
def sepOK (width height : ℕ) (a b : Pos) : Prop :=
  width / 4 < max a.1 b.1 - min a.1 b.1 ∨ height / 4 < max a.2 b.2 - min a.2 b.2

instance (width height : ℕ) (a b : Pos) : Decidable (sepOK width height a b) := by
  unfold sepOK; infer_instance

/-- The exit-placement retry loop: redraw until the separation from the
start holds, then remove the exit tile from the pool. The loop has no
bound in the source; fuel models the executions that complete. A draw
from an empty pool raises in Python, hence `none`. -/
def placeExit (width height : ℕ) (start : Pos) :
    ℕ → List Pos → List ℕ → Option (Pos × List Pos × List ℕ)
  | 0, _, _ => none
  | fuel + 1, pool, rng =>
    if pool = [] then none
    else
      let e := choosePos pool (rng.headD 0)
      if sepOK width height e start then some (e, pool.erase e, rng.tail)
      else placeExit width height start fuel pool rng.tail

/-- The shop-placement retry loop (only on shop floors): redraw until
the tile differs from the start and the exit, then remove it. -/
def placeShop (start exitLoc : Pos) :
    ℕ → List Pos → List ℕ → Option (Pos × List Pos × List ℕ)
  | 0, _, _ => none
  | fuel + 1, pool, rng =>
    if pool = [] then none
    else
      let s := choosePos pool (rng.headD 0)
      if s ≠ start ∧ s ≠ exitLoc then some (s, pool.erase s, rng.tail)
      else placeShop start exitLoc fuel pool rng.tail

/-- The trap/enemy/item placement loops: `n` draws, each removed from
the pool, stopping early when the pool empties
(`if not empty_tiles: break`). Returns the placed positions, the
remaining pool and the remaining RNG stream. -/
def placeMany : ℕ → List Pos → List ℕ → List Pos × List Pos × List ℕ
  | 0, pool, rng => ([], pool, rng)
  | n + 1, pool, rng =>
    if pool = [] then ([], pool, rng)
    else
      let q := choosePos pool (rng.headD 0)
      let res := placeMany n (pool.erase q) rng.tail
      (q :: res.1, res.2.1, res.2.2)

/-- The crystal placement loop: up to `n` attempts, each first checking
the pool and then flipping the spawn-chance coin; only successful flips
draw (and remove) a tile. -/
def placeCrystals : ℕ → List Pos → List ℕ → List Bool → List Pos × List Pos
  | 0, pool, _, _ => ([], pool)
  | n + 1, pool, rng, coins =>
    if pool = [] then ([], pool)
    else if coins.headD false then
      let q := choosePos pool (rng.headD 0)
      let res := placeCrystals n (pool.erase q) rng.tail coins.tail
      (q :: res.1, res.2)
    else placeCrystals n pool rng coins.tail

/-- The features placed on a floor by step 3 of `generate_map`:
`player_start`, `exit_location`, `shop_location`, the keys of
`traps_on_map`, the enemy positions, and the keys of `items_on_map`
(regular items and energy crystals). -/
structure Features where
  start : Pos
  exitLoc : Pos
  shopLoc : Option Pos
  traps : List Pos
  enemies : List Pos
  items : List Pos
  crystals : List Pos
deriving DecidableEq

/-- Every feature position of a floor, as one list:
`items_on_map` keys are `items ++ crystals`. -/
def Features.allPositions (f : Features) : List Pos :=
  f.start :: f.exitLoc :: (f.shopLoc.toList ++ f.traps ++ f.enemies ++ f.items ++ f.crystals)

/-- The `if is_shop_floor:` guard around the shop retry loop: on a shop
floor run the loop, otherwise place no shop and leave the pool alone. -/
def placeShopOpt (wantShop : Bool) (start exitLoc : Pos) (fuel : ℕ)
    (pool : List Pos) (rng : List ℕ) :
    Option (Option Pos × List Pos × List ℕ) :=
  if wantShop then
    (placeShop start exitLoc fuel pool rng).map fun x => (some x.1, x.2.1, x.2.2)
  else some (none, pool, rng)

/-- Step 3 of `GameMap.generate_map`: with an empty pool the source
regenerates the whole map (modelled as `none`: no floor from this
attempt); otherwise place the start, the exit (retry loop), the shop
when wanted (retry loop), then traps, enemies, items and crystals, each
draw removing its tile from the shared pool. -/
def placeFeatures (width height : ℕ) (pool0 : List Pos) (wantShop : Bool)
    (nTraps nEnemies nItems nCrystalTries fuel : ℕ) (rng : List ℕ)
    (coins : List Bool) : Option Features :=
  if pool0 = [] then none
  else
    let start := choosePos pool0 (rng.headD 0)
    let pool1 := pool0.erase start
    match placeExit width height start fuel pool1 rng.tail with
    | none => none
    | some (exitLoc, pool2, rng2) =>
      match placeShopOpt wantShop start exitLoc fuel pool2 rng2 with
      | none => none
      | some (shopLoc, pool3, rng3) =>
        let t := placeMany nTraps pool3 rng3
        let en := placeMany nEnemies t.2.1 t.2.2
        let it := placeMany nItems en.2.1 en.2.2
        let cr := placeCrystals nCrystalTries it.2.1 it.2.2 coins
        some { start := start, exitLoc := exitLoc, shopLoc := shopLoc,
               traps := t.1, enemies := en.1, items := it.1, crystals := cr.1 }

/-- The pool collected at the top of step 3: all positions whose tile
is the floor character, scanned row by row
(`for y in range(height): for x in range(width): if tiles[y][x] == '.'`). -/
def emptyTilesOf (width height : ℕ) (tile : ℕ → ℕ → Char) : List Pos :=
  (List.range height).flatMap fun y =>
    (List.range width).filterMap fun x =>
      if tile x y = '.' then some (x, y) else none

/-- Invariant of one feature-placement stage: the freshly placed
positions are distinct, they come from the incoming pool, and the
outgoing pool is what is left (no placed position survives in it). -/
def PlaceInv (poolIn placed poolOut : List Pos) : Prop :=
  placed.Nodup ∧ poolOut.Nodup ∧ (∀ q ∈ placed, q ∈ poolIn ∧ q ∉ poolOut) ∧
  ∀ q ∈ poolOut, q ∈ poolIn

/-- The player fields that nothing inside the combat loop can change:
character level, xp, credits, and the xp threshold. Rewards exist only
in the exit sequence `combatEnd`. -/
def FrameEq (p q : Player) : Prop :=
  q.level = p.level ∧ q.xp = p.xp ∧ q.credits = p.credits ∧
  q.xpToNextLevel = p.xpToNextLevel

/-! ## Concrete fixtures used by witnesses and counterexamples -/

/-- A soldier player who has learned both soldier skills. -/
def skillPlayer : Player :=
  { name := "Rex", maxHp := 110, hp := 110, attack := 30, defense := 5,
    speed := 10, level := 5, classType := "soldier", inventory := [],
    equippedWeapon := none, equippedArmor := none, xp := 0,
    xpToNextLevel := 253, learnedSkills := [powerShotSkill, grenadeTossSkill],
    maxEnergy := 90, energy := 50, credits := 0, crystalsCollected := 0,
    x := 1, y := 1 }

/-- A freshly created soldier-like player at level 1 (base stats of
`character_creation` before equipment). -/
def testPlayer : Player :=
  { name := "Rex", maxHp := 110, hp := 110, attack := 15, defense := 5,
    speed := 10, level := 1, classType := "soldier", inventory := [],
    equippedWeapon := none, equippedArmor := none, xp := 0,
    xpToNextLevel := 50, learnedSkills := [], maxEnergy := 50,
    energy := 50, credits := 0, crystalsCollected := 0, x := 1, y := 1 }

/-- A weak one-hit test enemy worth exactly one level-up of XP. -/
def testEnemy : Enemy :=
  { name := "Cyber-Drone", maxHp := 30, hp := 1, attack := 8, defense := 0,
    speed := 1, xpValue := 50, creditValue := 5, itemDrop := none,
    symbol := 'D', x := 2, y := 1 }

/-- The floor features placed on an 8-by-1 all-floor strip by the C3
witness run. -/
def testFeatures : Features :=
  { start := (0, 0), exitLoc := (3, 0), shopLoc := none,
    traps := [(1, 0)], enemies := [(2, 0)], items := [], crystals := [(4, 0)] }

/-- A save record whose item and skill names are all known to the
catalog. -/
def testRecord : SaveRecord :=
  { currentLevelNum := 3, name := "Rex", hp := 80, maxHp := 125,
    attack := 23, defense := 10, speed := 11, level := 2, xp := 10,
    xpToNextLevel := 75, classType := "soldier", maxEnergy := 60,
    energy := 42, credits := 37, crystalsCollected := 2, x := 5, y := 7,
    inventory := ["Health Potion", "Energy Pack", "Scrap Armor"],
    equippedWeapon := some "Laser Pistol",
    equippedArmor := some "Reinforced Vest",
    learnedSkills := ["Power Shot"] }

/-! # Theorems -/

/-- `unlockSkills` only appends to `learnedSkills`; every other field
is untouched. -/
theorem unlockSkills_stats (p : Player) :
    (unlockSkills p).level = p.level ∧ (unlockSkills p).maxHp = p.maxHp ∧
    (unlockSkills p).hp = p.hp ∧ (unlockSkills p).attack = p.attack ∧
    (unlockSkills p).defense = p.defense ∧ (unlockSkills p).speed = p.speed ∧
    (unlockSkills p).maxEnergy = p.maxEnergy ∧ (unlockSkills p).energy = p.energy ∧
    (unlockSkills p).xp = p.xp ∧ (unlockSkills p).xpToNextLevel = p.xpToNextLevel ∧
    (unlockSkills p).credits = p.credits ∧
    (unlockSkills p).inventory = p.inventory ∧
    (unlockSkills p).classType = p.classType := by
  simp only [unlockSkills]
  split_ifs <;> simp_all

/-- `levelUp` performs exactly the stat changes of `Player.level_up`. -/
theorem levelUp_stats (p : Player) :
    (levelUp p).level = p.level + 1 ∧ (levelUp p).maxHp = p.maxHp + 15 ∧
    (levelUp p).hp = p.maxHp + 15 ∧ (levelUp p).attack = p.attack + 3 ∧
    (levelUp p).defense = p.defense + 2 ∧ (levelUp p).speed = p.speed + 1 ∧
    (levelUp p).maxEnergy = p.maxEnergy + 10 ∧ (levelUp p).energy = p.maxEnergy + 10 ∧
    (levelUp p).xp = p.xp - p.xpToNextLevel ∧
    (levelUp p).xpToNextLevel = xpThreshold (p.level + 1) ∧
    (levelUp p).credits = p.credits ∧
    (levelUp p).inventory = p.inventory ∧
    (levelUp p).classType = p.classType := by
  unfold levelUp
  have h := unlockSkills_stats
    { p with
      level := p.level + 1, maxHp := p.maxHp + 15, hp := p.maxHp + 15,
      attack := p.attack + 3, defense := p.defense + 2, speed := p.speed + 1,
      maxEnergy := p.maxEnergy + 10, energy := p.maxEnergy + 10,
      xp := p.xp - p.xpToNextLevel, xpToNextLevel := xpThreshold (p.level + 1) }
  simpa using h

/-- C1 (counterexample): `add_xp` does *not* loop while
`xp ≥ xp_to_next_level`. `testPlayer` (level 1, xp 0, threshold 50)
gains 125 XP, which crosses the level-2 threshold (50) and the level-3
threshold (75); the claim demands two level-ups, but the `if` in
`add_xp` performs exactly one: the result is level 2 with
`xp = 75 ≥ xp_to_next_level = 75` left standing, so the claimed
while-loop exit condition is violated. -/
theorem claim1_counterexample :
    (addXp testPlayer 125).level = 2 ∧
    (addXp testPlayer 125).xpToNextLevel ≤ (addXp testPlayer 125).xp ∧
    ¬ (addXp testPlayer 125).level = 3 := by
  decide

/-- C1 (amended): a single `add_xp` call performs *at most one*
level-up: if the accumulated XP meets the current threshold (even when
it crosses several thresholds), exactly one level-up fires, with the
stated effects — `level + 1`, `max_hp + 15` and full heal, `attack + 3`,
`defense + 2`, `speed + 1`, `max_energy + 10` and full energy restore,
the old `xp_to_next_level` subtracted from `xp`, and
`xp_to_next_level = floor(50 * 1.5 ^ (level - 1))` recomputed for the
new level; a further threshold crossing waits for the next `add_xp`
call. -/
theorem claim1_addXp_single_level_up (p : Player) (a : ℤ)
    (h : p.xpToNextLevel ≤ p.xp + a) :
    (addXp p a).level = p.level + 1 ∧
    (addXp p a).maxHp = p.maxHp + 15 ∧
    (addXp p a).hp = p.maxHp + 15 ∧
    (addXp p a).attack = p.attack + 3 ∧
    (addXp p a).defense = p.defense + 2 ∧
    (addXp p a).speed = p.speed + 1 ∧
    (addXp p a).maxEnergy = p.maxEnergy + 10 ∧
    (addXp p a).energy = p.maxEnergy + 10 ∧
    (addXp p a).xp = p.xp + a - p.xpToNextLevel ∧
    (addXp p a).xpToNextLevel = xpThreshold (p.level + 1) := by
  have hstats := levelUp_stats ({ p with xp := p.xp + a } : Player)
  have hif : addXp p a = levelUp { p with xp := p.xp + a } := by
    unfold addXp
    simp only [if_pos h]
  rw [hif]
  simpa using ⟨hstats.1, hstats.2.1, hstats.2.2.1, hstats.2.2.2.1,
    hstats.2.2.2.2.1, hstats.2.2.2.2.2.1, hstats.2.2.2.2.2.2.1,
    hstats.2.2.2.2.2.2.2.1, hstats.2.2.2.2.2.2.2.2.1,
    hstats.2.2.2.2.2.2.2.2.2.1⟩

/-- Deleting a key from the trap map removes it from lookups. -/
theorem trapsLookup_erase (ts : List ((ℤ × ℤ) × Trap)) (q : ℤ × ℤ) :
    trapsLookup (trapsErase ts q) q = none := by
  induction ts with
  | nil => rfl
  | cons kv rest ih =>
    unfold trapsErase trapsLookup at *
    by_cases h : kv.1 = q <;> simp_all

/-- Clamped damage arithmetic of `take_damage`. -/
theorem takeDamage_hp (p : Player) (d : ℤ) :
    (p.takeDamage d).hp = max 0 (p.hp - d) := by
  simp only [Player.takeDamage]
  omega

/-- C1 (witness): the amended theorem applied to `testPlayer` gaining
60 XP: one level-up to level 2, threshold 75, carry-over xp 10. -/
theorem claim1_witness :
    testPlayer.xpToNextLevel ≤ testPlayer.xp + 60 ∧
    (addXp testPlayer 60).level = testPlayer.level + 1 ∧
    (addXp testPlayer 60).xp = testPlayer.xp + 60 - testPlayer.xpToNextLevel :=
  ⟨by decide,
   (claim1_addXp_single_level_up testPlayer 60 (by decide)).1,
   (claim1_addXp_single_level_up testPlayer 60 (by decide)).2.2.2.2.2.2.2.2.1⟩

/-- C5: a trap fires at most once. On the first trigger the trap object
is marked `triggered`, and triggering the same (now-marked) trap object
again changes nothing; a scout takes no damage while every other class
takes exactly `TRAP_DAMAGE_BASE = 15` with hp clamped at 0; and the
`move_player` trap step deletes the trap from `traps_on_map` for scouts
and non-scouts alike. -/
theorem claim5_trap_fires_once (t : Trap) (p q : Player)
    (ts : List ((ℤ × ℤ) × Trap)) (pos : ℤ × ℤ)
    (ht : t.triggered = false) (hd : t.damage = TRAP_DAMAGE_BASE)
    (hl : trapsLookup ts pos = some t) :
    (t.trigger p).1.triggered = true ∧
    (t.trigger p).1.trigger q = ((t.trigger p).1, q) ∧
    (p.classType = "scout" → (t.trigger p).2 = p) ∧
    (p.classType ≠ "scout" →
      (t.trigger p).2 = p.takeDamage TRAP_DAMAGE_BASE ∧
      (t.trigger p).2.hp = max 0 (p.hp - TRAP_DAMAGE_BASE)) ∧
    trapsLookup (movePlayerTrapStep ts pos p).1 pos = none := by
  have hmark : (t.trigger p).1.triggered = true := by
    unfold Trap.trigger
    simp only [ht, Bool.false_eq_true, if_false]
    split_ifs <;> rfl
  have hagain : ∀ (t1 : Trap) (r : Player), t1.triggered = true →
      t1.trigger r = (t1, r) := by
    intro t1 r h1
    unfold Trap.trigger
    rw [if_pos h1]
  refine ⟨hmark, hagain (t.trigger p).1 q hmark, ?_, ?_, ?_⟩
  · intro hs
    unfold Trap.trigger
    simp [ht, hs]
  · intro hs
    unfold Trap.trigger
    simp only [ht, Bool.false_eq_true, if_false, if_neg hs]
    exact ⟨by rw [hd], by rw [hd, takeDamage_hp]⟩
  · unfold movePlayerTrapStep
    rw [hl]
    simp only [ht, if_pos rfl]
    exact trapsLookup_erase ts pos

/-- C5 (witness): a fresh 15-damage trap at `(3, 1)` against
`testPlayer` (a soldier with 110 hp): marked triggered, idempotent on
re-trigger, 15 damage taken, and removed from a singleton trap map. -/
theorem claim5_witness :
    ((Trap.mk 3 1 15 false).triggered = false ∧
     (Trap.mk 3 1 15 false).damage = TRAP_DAMAGE_BASE ∧
     trapsLookup [((3, 1), Trap.mk 3 1 15 false)] (3, 1) = some (Trap.mk 3 1 15 false)) ∧
    ((Trap.mk 3 1 15 false).trigger testPlayer).1.triggered = true ∧
    trapsLookup
      (movePlayerTrapStep [((3, 1), Trap.mk 3 1 15 false)] (3, 1) testPlayer).1
      (3, 1) = none :=
  ⟨⟨by decide, by decide, by decide⟩,
   (claim5_trap_fires_once (Trap.mk 3 1 15 false) testPlayer testPlayer
     [((3, 1), Trap.mk 3 1 15 false)] (3, 1) (by decide) (by decide) (by decide)).1,
   (claim5_trap_fires_once (Trap.mk 3 1 15 false) testPlayer testPlayer
     [((3, 1), Trap.mk 3 1 15 false)] (3, 1) (by decide) (by decide) (by decide)).2.2.2.2⟩

/-- C8: on its turn outside combat a living enemy (a) attacks without
moving exactly when the offset to the player is `(1,0)` or `(0,1)` in
absolute value; (b) otherwise leaves the player untouched and steps one
tile toward the player on both axes simultaneously, the step being
rejected (position unchanged) when out of bounds, a wall, occupied by
another living enemy, or exactly the player's tile; and (c) in
particular a diagonally adjacent enemy does not attack. -/
theorem claim8_enemy_turn (w h : ℤ) (tiles : List (List Char)) (p : Player)
    (others : List Enemy) (e : Enemy) (hA : e.isAlive = true) :
    ((((e.x - p.x).natAbs = 1 ∧ (e.y - p.y).natAbs = 0) ∨
      ((e.x - p.x).natAbs = 0 ∧ (e.y - p.y).natAbs = 1)) →
      enemyTurn w h tiles p others e =
        (e, p.takeDamage (attackDamage e.attack p.defense))) ∧
    (¬ (((e.x - p.x).natAbs = 1 ∧ (e.y - p.y).natAbs = 0) ∨
        ((e.x - p.x).natAbs = 0 ∧ (e.y - p.y).natAbs = 1)) →
      (enemyTurn w h tiles p others e).2 = p ∧
      (enemyTurn w h tiles p others e).1 =
        (if enemyCanMove w h tiles p others (stepToward p.x e.x) (stepToward p.y e.y)
         then { e with x := stepToward p.x e.x, y := stepToward p.y e.y }
         else e)) ∧
    ((e.x - p.x).natAbs = 1 ∧ (e.y - p.y).natAbs = 1 →
      (enemyTurn w h tiles p others e).2 = p) := by
  unfold enemyTurn
  simp only [hA, if_true]
  refine ⟨fun hadj => by rw [if_pos hadj], fun hnadj => ?_, fun hdiag => ?_⟩
  · rw [if_neg hnadj]
    exact ⟨by split_ifs <;> rfl, by split_ifs <;> rfl⟩
  · have hnadj : ¬ ((((e.x - p.x).natAbs = 1 ∧ (e.y - p.y).natAbs = 0) ∨
        ((e.x - p.x).natAbs = 0 ∧ (e.y - p.y).natAbs = 1))) := by
      rintro (⟨h1, h2⟩ | ⟨h1, h2⟩) <;> omega
    rw [if_neg hnadj]
    split_ifs <;> rfl

/-- C8 (witness): `testEnemy` at `(2,1)` is orthogonally adjacent to
`testPlayer` at `(1,1)`, so its turn is an attack for
`max(0, 8 - 5) = 3` damage and no movement. -/
theorem claim8_witness :
    testEnemy.isAlive = true ∧
    enemyTurn 40 20 [] testPlayer [] testEnemy =
      (testEnemy, testPlayer.takeDamage (attackDamage testEnemy.attack testPlayer.defense)) :=
  ⟨by decide,
   (claim8_enemy_turn 40 20 [] testPlayer [] testEnemy (by decide)).1 (by decide)⟩

/-- Clamped damage arithmetic of `take_damage` (enemy side). -/
theorem enemyTakeDamage_hp (e : Enemy) (d : ℤ) :
    (e.takeDamage d).hp = max 0 (e.hp - d) := by
  simp only [Enemy.takeDamage]
  omega

/-- No skill effect touches the player's energy. -/
theorem applySkill_energy (eff : SkillEffect) (p : Player) (e : Enemy)
    (os : List Enemy) : (applySkill eff p e os).1.energy = p.energy := by
  cases eff <;> unfold applySkill <;> (try split_ifs) <;> rfl

/-- `resolveSkill` leaves the player's energy where the debit put it. -/
theorem resolveSkill_energy (sk : Skill) (p : Player) (e : Enemy)
    (os : List Enemy) : (resolveSkill sk p e os).1.energy = p.energy := by
  unfold resolveSkill
  cases heff : sk.effect <;> simp [heff, applySkill_energy]

/-- C9: in the skill menu of combat, picking a skill the player cannot
afford (`energy < energy_cost`) changes nothing — the loop continues on
the remaining input exactly as if the pick had not happened (message
and re-prompt, step not consumed); picking an affordable skill consumes
the step (`True`), debits exactly `energy_cost` first, and applies the
skill effect to the debited player — and since no skill effect touches
energy, the resulting energy is exactly `energy - energy_cost`. -/
theorem claim9_skill_energy_gate (p : Player) (e : Enemy) (os : List Enemy)
    (i : ℕ) (rest : List SkillChoice) (sk : Skill)
    (hs : p.learnedSkills[i]? = some sk) :
    (p.energy < sk.energyCost →
      handleSkillsLoop p e os (SkillChoice.pick i :: rest) =
        handleSkillsLoop p e os rest) ∧
    (sk.energyCost ≤ p.energy →
      handleSkillsLoop p e os (SkillChoice.pick i :: rest) =
        some (true, resolveSkill sk { p with energy := p.energy - sk.energyCost } e os) ∧
      (resolveSkill sk { p with energy := p.energy - sk.energyCost } e os).1.energy =
        p.energy - sk.energyCost) := by
  constructor
  · intro hlt
    rw [show handleSkillsLoop p e os (SkillChoice.pick i :: rest) =
          (match p.learnedSkills[i]? with
           | none => handleSkillsLoop p e os rest
           | some sk =>
             if sk.energyCost ≤ p.energy then
               some (true, resolveSkill sk { p with energy := p.energy - sk.energyCost } e os)
             else handleSkillsLoop p e os rest) from rfl, hs]
    simp only [if_neg (not_le.mpr hlt)]
  · intro hle
    refine ⟨?_, ?_⟩
    · rw [show handleSkillsLoop p e os (SkillChoice.pick i :: rest) =
            (match p.learnedSkills[i]? with
             | none => handleSkillsLoop p e os rest
             | some sk =>
               if sk.energyCost ≤ p.energy then
                 some (true, resolveSkill sk { p with energy := p.energy - sk.energyCost } e os)
               else handleSkillsLoop p e os rest) from rfl, hs]
      simp only [if_pos hle]
    · exact resolveSkill_energy sk { p with energy := p.energy - sk.energyCost } e os

/-- C9 (witness): `skillPlayer` (energy 50) picks `Power Shot`
(cost 15): the step is consumed and the energy lands at exactly 35. -/
theorem claim9_witness :
    skillPlayer.learnedSkills[0]? = some powerShotSkill ∧
    powerShotSkill.energyCost ≤ skillPlayer.energy ∧
    handleSkillsLoop skillPlayer testEnemy [] [SkillChoice.pick 0] =
      some (true, resolveSkill powerShotSkill
        { skillPlayer with energy := skillPlayer.energy - powerShotSkill.energyCost }
        testEnemy []) ∧
    (resolveSkill powerShotSkill
      { skillPlayer with energy := skillPlayer.energy - powerShotSkill.energyCost }
      testEnemy []).1.energy = 35 :=
  ⟨by decide, by decide,
   ((claim9_skill_energy_gate skillPlayer testEnemy [] 0 [] powerShotSkill
      (by decide)).2 (by decide)).1,
   by have h := ((claim9_skill_energy_gate skillPlayer testEnemy [] 0 []
        powerShotSkill (by decide)).2 (by decide)).2
      simpa using h⟩

/-- C4: with sufficient energy (cost 30), a `Grenade Toss` pick debits
the energy and hits **every** enemy of the floor — the engaged enemy
and all the others — each alive target taking exactly
`max(0, attack // 3 + 10 - its own defense)` damage with hp clamped at
0; the others' list is immediately filtered so that exactly the
still-alive enemies remain; and with `attack = 30` the raw area damage
is `30 // 3 + 10 = 20`. (The engaged enemy is held apart from the
others' list in this embedding; when it dies the post-combat pruning in
`combat_round` removes it from the floor, see C10.) -/
theorem claim4_grenade_toss (p : Player) (e : Enemy) (os : List Enemy)
    (i : ℕ) (rest : List SkillChoice)
    (hs : p.learnedSkills[i]? = some grenadeTossSkill)
    (hE : 30 ≤ p.energy) :
    handleSkillsLoop p e os (SkillChoice.pick i :: rest) =
      some (true, { p with energy := p.energy - 30 },
            grenadeHit { p with energy := p.energy - 30 } e,
            (os.map (grenadeHit { p with energy := p.energy - 30 })).filter
              Enemy.isAlive) ∧
    (∀ x ∈ e :: os, x.isAlive = true →
      (grenadeHit { p with energy := p.energy - 30 } x).hp =
        max 0 (x.hp - max 0 (aoeDamage p - x.defense))) ∧
    (∀ x ∈ os.map (grenadeHit { p with energy := p.energy - 30 }),
      (x ∈ (os.map (grenadeHit { p with energy := p.energy - 30 })).filter
          Enemy.isAlive ↔ x.isAlive = true)) ∧
    (p.attack = 30 → aoeDamage p = 20) := by
  refine ⟨?_, ?_, ?_, ?_⟩
  · unfold handleSkillsLoop
    rw [hs]
    simp only [if_pos (show grenadeTossSkill.energyCost ≤ p.energy from hE)]
    rfl
  · intro x _ halive
    unfold grenadeHit
    rw [if_pos halive]
    exact enemyTakeDamage_hp x (max 0 (aoeDamage { p with energy := p.energy - 30 } - x.defense))
  · intro x hx
    simp [List.mem_filter, hx]
  · intro h30
    unfold aoeDamage
    rw [h30]
    decide

/-- C4 (witness): `skillPlayer` (attack 30, energy 50) tosses a grenade
at `testEnemy` (1 hp, 0 defense, engaged) and one other enemy with 25
hp and 3 defense: raw damage 20; the engaged enemy drops to 0 hp and
the other survives at `25 - (20 - 3) = 8` hp and stays in the filtered
list. -/
theorem claim4_witness :
    skillPlayer.learnedSkills[1]? = some grenadeTossSkill ∧
    30 ≤ skillPlayer.energy ∧
    handleSkillsLoop skillPlayer testEnemy
        [{ testEnemy with name := "Mutant Scavenger", hp := 25, defense := 3 }]
        [SkillChoice.pick 1] =
      some (true, { skillPlayer with energy := skillPlayer.energy - 30 },
            grenadeHit { skillPlayer with energy := skillPlayer.energy - 30 } testEnemy,
            ([{ testEnemy with name := "Mutant Scavenger", hp := 25, defense := 3 }].map
              (grenadeHit { skillPlayer with energy := skillPlayer.energy - 30 })).filter
              Enemy.isAlive) ∧
    aoeDamage skillPlayer = 20 :=
  ⟨by decide, by decide,
   (claim4_grenade_toss skillPlayer testEnemy
      [{ testEnemy with name := "Mutant Scavenger", hp := 25, defense := 3 }]
      1 [] (by decide) (by decide)).1,
   (claim4_grenade_toss skillPlayer testEnemy
      [{ testEnemy with name := "Mutant Scavenger", hp := 25, defense := 3 }]
      1 [] (by decide) (by decide)).2.2.2 (by decide)⟩

/-- Every item of the catalog carries exactly the name it is keyed
under. -/
theorem itemLookup_name (n : String) (it : Item)
    (h : ALL_ITEM_CLASSES n = some it) : it.name = n := by
  unfold ALL_ITEM_CLASSES at h
  split_ifs at h <;> injection h with h <;> subst h <;>
    simp_all [healthPotion, energyCell, energyPack, energyCrystal,
      laserPistol, plasmaRifle, scrapArmor, reinforcedVest]

/-- Every skill of the catalog carries exactly the name it is keyed
under. -/
theorem skillLookup_name (n : String) (sk : Skill)
    (h : ALL_SKILL_DATA n = some sk) : sk.name = n := by
  unfold ALL_SKILL_DATA at h
  split_ifs at h <;> injection h with h <;> subst h <;>
    simp_all [powerShotSkill, repairDroneSkill, burstOfSpeedSkill,
      grenadeTossSkill, shieldMatrixSkill, stealthFieldSkill]

/-- Reconstructing an all-known inventory and saving it again yields
the original name list. -/
theorem inventory_names_round_trip (l : List String)
    (h : ∀ n ∈ l, (ALL_ITEM_CLASSES n).isSome = true) :
    (l.filterMap ALL_ITEM_CLASSES).map Item.name = l := by
  induction l with
  | nil => rfl
  | cons a rest ih =>
    obtain ⟨it, hit⟩ := Option.isSome_iff_exists.mp (h a (by simp))
    have hrest := ih fun n hn => h n (by simp [hn])
    simp [List.filterMap_cons, hit, itemLookup_name a it hit, hrest]

/-- Reconstructing an all-known skill list and saving it again yields
the original name list. -/
theorem skill_names_round_trip (l : List String)
    (h : ∀ n ∈ l, (ALL_SKILL_DATA n).isSome = true) :
    (l.filterMap ALL_SKILL_DATA).map Skill.name = l := by
  induction l with
  | nil => rfl
  | cons a rest ih =>
    obtain ⟨sk, hsk⟩ := Option.isSome_iff_exists.mp (h a (by simp))
    have hrest := ih fun n hn => h n (by simp [hn])
    simp [List.filterMap_cons, hsk, skillLookup_name a sk hsk, hrest]

/-- C6: loading a save whose item and skill names are all known to the
catalog and saving again immediately reproduces the record exactly —
every player field, the name lists, the equipped names, and the current
floor index (the floor layout is regenerated and not part of the
record). -/
theorem claim6_save_load_round_trip (rec : SaveRecord)
    (hinv : ∀ n ∈ rec.inventory, (ALL_ITEM_CLASSES n).isSome = true)
    (hw : (rec.equippedWeapon.all fun n => (ALL_ITEM_CLASSES n).isSome) = true)
    (ha : (rec.equippedArmor.all fun n => (ALL_ITEM_CLASSES n).isSome) = true)
    (hsk : ∀ n ∈ rec.learnedSkills, (ALL_SKILL_DATA n).isSome = true) :
    saveGame (loadGame rec).1 (loadGame rec).2 = rec := by
  obtain ⟨cln, nm, hp, mhp, atk, df, spd, lvl, xp, thr, ct, me, en, cr, cc,
    x, y, inv, ew, ea, ls⟩ := rec
  unfold saveGame loadGame
  simp only [SaveRecord.mk.injEq, true_and, and_true]
  refine ⟨inventory_names_round_trip inv hinv, ?_, ?_,
    skill_names_round_trip ls hsk⟩
  · cases ew with
    | none => simp
    | some n =>
      obtain ⟨it, hit⟩ := Option.isSome_iff_exists.mp (by simpa using hw)
      simp [hit, itemLookup_name n it hit]
  · cases ea with
    | none => simp
    | some n =>
      obtain ⟨it, hit⟩ := Option.isSome_iff_exists.mp (by simpa using ha)
      simp [hit, itemLookup_name n it hit]

/-- C6 (witness): the round trip on `testRecord` (three inventory
items, both equipment slots filled, one learned skill). -/
theorem claim6_witness :
    (∀ n ∈ testRecord.inventory, (ALL_ITEM_CLASSES n).isSome = true) ∧
    (testRecord.equippedWeapon.all fun n => (ALL_ITEM_CLASSES n).isSome) = true ∧
    (∀ n ∈ testRecord.learnedSkills, (ALL_SKILL_DATA n).isSome = true) ∧
    saveGame (loadGame testRecord).1 (loadGame testRecord).2 = testRecord :=
  ⟨by decide, by decide, by decide,
   claim6_save_load_round_trip testRecord (by decide) (by decide)
     (by decide) (by decide)⟩

theorem frameEq_refl (p : Player) : FrameEq p p := ⟨rfl, rfl, rfl, rfl⟩

theorem frameEq_trans {p q r : Player} (h1 : FrameEq p q) (h2 : FrameEq q r) :
    FrameEq p r :=
  ⟨h2.1.trans h1.1, h2.2.1.trans h1.2.1, h2.2.2.1.trans h1.2.2.1,
   h2.2.2.2.trans h1.2.2.2⟩

theorem takeDamage_frame (p : Player) (d : ℤ) : FrameEq p (p.takeDamage d) :=
  ⟨rfl, rfl, rfl, rfl⟩

theorem equipItem_frame (p : Player) (it : Item) : FrameEq p (equipItem p it) := by
  unfold FrameEq equipItem
  split <;> (try split) <;> exact ⟨rfl, rfl, rfl, rfl⟩

theorem useConsumable_frame (p : Player) (it : Item) :
    FrameEq p (useConsumable p it) := by
  unfold FrameEq useConsumable
  split <;> (try split) <;> exact ⟨rfl, rfl, rfl, rfl⟩

theorem applySkill_frame (eff : SkillEffect) (p : Player) (e : Enemy)
    (os : List Enemy) : FrameEq p (applySkill eff p e os).1 := by
  cases eff <;> unfold FrameEq applySkill <;> (try split_ifs) <;>
    exact ⟨rfl, rfl, rfl, rfl⟩

theorem resolveSkill_frame (sk : Skill) (p : Player) (e : Enemy)
    (os : List Enemy) : FrameEq p (resolveSkill sk p e os).1 := by
  unfold resolveSkill
  cases heff : sk.effect <;> simp only [heff] <;>
    exact applySkill_frame _ p e os

theorem handleSkillsLoop_frame (cs : List SkillChoice) :
    ∀ (p : Player) (e : Enemy) (os : List Enemy) (b : Bool) (p1 : Player)
      (e1 : Enemy) (os1 : List Enemy),
      handleSkillsLoop p e os cs = some (b, p1, e1, os1) → FrameEq p p1 := by
  induction cs with
  | nil => intro p e os b p1 e1 os1 h; simp [handleSkillsLoop] at h
  | cons c rest ih =>
    intro p e os b p1 e1 os1 h
    cases c with
    | back =>
      rw [show handleSkillsLoop p e os (SkillChoice.back :: rest) =
            some (false, p, e, os) from rfl] at h
      obtain ⟨-, rfl, -, -⟩ := by simpa using h
      exact frameEq_refl p
    | pick i =>
      rw [show handleSkillsLoop p e os (SkillChoice.pick i :: rest) =
            (match p.learnedSkills[i]? with
             | none => handleSkillsLoop p e os rest
             | some sk =>
               if sk.energyCost ≤ p.energy then
                 some (true, resolveSkill sk
                   { p with energy := p.energy - sk.energyCost } e os)
               else handleSkillsLoop p e os rest) from rfl] at h
      split at h
      · exact ih p e os b p1 e1 os1 h
      · rename_i sk hsk
        split_ifs at h with hcost
        · have h2 := Option.some.inj h
          have hp1 : (resolveSkill sk { p with energy := p.energy - sk.energyCost }
              e os).1 = p1 := congrArg (fun z => z.2.1) h2
          rw [← hp1]
          exact frameEq_trans (⟨rfl, rfl, rfl, rfl⟩ : FrameEq p _)
            (resolveSkill_frame sk { p with energy := p.energy - sk.energyCost } e os)
        · exact ih p e os b p1 e1 os1 h

theorem handleSkills_frame (p : Player) (e : Enemy) (os : List Enemy)
    (cs : List SkillChoice) (b : Bool) (p1 : Player) (e1 : Enemy)
    (os1 : List Enemy) (h : handleSkills p e os cs = some (b, p1, e1, os1)) :
    FrameEq p p1 := by
  unfold handleSkills at h
  split_ifs at h
  · obtain ⟨-, rfl, -, -⟩ := by simpa using h
    exact frameEq_refl p
  · exact handleSkillsLoop_frame cs p e os b p1 e1 os1 h

theorem handleInventoryLoop_frame (cs : List InvChoice) :
    ∀ (p : Player) (b : Bool) (p1 : Player),
      handleInventoryLoop p cs = some (b, p1) → FrameEq p p1 := by
  induction cs with
  | nil => intro p b p1 h; simp [handleInventoryLoop] at h
  | cons c rest ih =>
    intro p b p1 h
    cases c with
    | back =>
      rw [show handleInventoryLoop p (InvChoice.back :: rest) =
            some (false, p) from rfl] at h
      obtain ⟨-, rfl⟩ := by simpa using h
      exact frameEq_refl p
    | pick i =>
      rw [show handleInventoryLoop p (InvChoice.pick i :: rest) =
            (match p.inventory[i]? with
             | none => handleInventoryLoop p rest
             | some it =>
               match it.kind with
               | ItemKind.consumable _ => some (true, useConsumable p it)
               | ItemKind.collectible => handleInventoryLoop p rest
               | ItemKind.weapon _ =>
                 if p.equippedWeapon = some it then handleInventoryLoop p rest
                 else
                   let p1 := equipItem p it
                   some (true, { p1 with inventory := p1.inventory.eraseIdx i })
               | ItemKind.armor _ =>
                 if p.equippedArmor = some it then handleInventoryLoop p rest
                 else
                   let p1 := equipItem p it
                   some (true, { p1 with inventory := p1.inventory.eraseIdx i })) from
            rfl] at h
      split at h
      · exact ih p b p1 h
      · rename_i it hit
        split at h
        · rename_i eff hk
          obtain ⟨-, rfl⟩ := by simpa using h
          exact useConsumable_frame p it
        · exact ih p b p1 h
        · rename_i bb hk
          split_ifs at h with he
          · exact ih p b p1 h
          · obtain ⟨-, rfl⟩ := by simpa using h
            exact frameEq_trans (equipItem_frame p it) ⟨rfl, rfl, rfl, rfl⟩
        · rename_i bb hk
          split_ifs at h with he
          · exact ih p b p1 h
          · obtain ⟨-, rfl⟩ := by simpa using h
            exact frameEq_trans (equipItem_frame p it) ⟨rfl, rfl, rfl, rfl⟩

theorem handleInventory_frame (p : Player) (cs : List InvChoice) (b : Bool)
    (p1 : Player) (h : handleInventory p cs = some (b, p1)) : FrameEq p p1 := by
  unfold handleInventory at h
  split_ifs at h
  · obtain ⟨-, rfl⟩ := by simpa using h
    exact frameEq_refl p
  · exact handleInventoryLoop_frame cs p b p1 h

theorem playerSlot_frame (p : Player) (e : Enemy) (os : List Enemy)
    (a : CombatAction) (r : SlotResult) (h : playerSlot p e os a = some r) :
    FrameEq p (match r with
               | SlotResult.cont p1 _ _ => p1
               | SlotResult.fled p1 _ _ => p1) := by
  cases a with
  | attack =>
    rw [show playerSlot p e os CombatAction.attack =
          some (SlotResult.cont p
            (e.takeDamage (attackDamage p.attack e.defense)) os) from rfl] at h
    cases h
    exact frameEq_refl p
  | inventoryMenu cs =>
    rw [show playerSlot p e os (CombatAction.inventoryMenu cs) =
          (match handleInventory p cs with
           | none => none
           | some (b, p1) => some (SlotResult.cont p1 e os)) from rfl] at h
    split at h
    · cases h
    · rename_i b2 p2 hi
      cases h
      exact handleInventory_frame p cs b2 p2 hi
  | fleeAttempt success =>
    rw [show playerSlot p e os (CombatAction.fleeAttempt success) =
          (if success then some (SlotResult.fled p e os)
           else some (SlotResult.cont p e os)) from rfl] at h
    split_ifs at h <;> cases h <;> exact frameEq_refl p
  | skillMenu cs =>
    rw [show playerSlot p e os (CombatAction.skillMenu cs) =
          (match handleSkills p e os cs with
           | none => none
           | some (b, p1, e1, os1) => some (SlotResult.cont p1 e1 os1)) from
          rfl] at h
    split at h
    · cases h
    · rename_i b2 p2 e2 os2 hi
      cases h
      exact handleSkills_frame p e os cs b2 p2 e2 os2 hi

theorem combatLoop_frame : ∀ (fuel : ℕ) (p : Player) (e : Enemy)
    (os : List Enemy) (script : List CombatAction) (p1 : Player) (e1 : Enemy)
    (os1 : List Enemy) (fl : Bool),
    combatLoop fuel p e os script = some (p1, e1, os1, fl) → FrameEq p p1 := by
  intro fuel
  induction fuel with
  | zero => intro p e os script p1 e1 os1 fl h; simp [combatLoop] at h
  | succ n ih =>
    intro p e os script p1 e1 os1 fl h
    unfold combatLoop at h
    split at h
    · split at h
      · split at h
        · cases h
        · rename_i a rest
          split at h
          · cases h
          · rename_i q1 f1 qs1 hps
            obtain ⟨rfl, -, -, -⟩ := by simpa using h
            exact playerSlot_frame p e os a _ hps
          · rename_i q1 f1 qs1 hps
            split at h
            · exact frameEq_trans
                (frameEq_trans (playerSlot_frame p e os a _ hps)
                  (takeDamage_frame q1 _))
                (ih _ _ _ _ _ _ _ _ h)
            · exact frameEq_trans (playerSlot_frame p e os a _ hps)
                (ih _ _ _ _ _ _ _ _ h)
      · split at h
        · simp only [] at h
          split at h
          · cases h
          · exact frameEq_trans (takeDamage_frame p _) (ih _ _ _ _ _ _ _ _ h)
        · rename_i a rest
          simp only [] at h
          split at h
          · split at h
            · cases h
            · rename_i q2 f2 qs2 hps
              obtain ⟨rfl, -, -, -⟩ := by simpa using h
              exact frameEq_trans (takeDamage_frame p _)
                (playerSlot_frame _ e os a _ hps)
            · rename_i q2 f2 qs2 hps
              exact frameEq_trans
                (frameEq_trans (takeDamage_frame p _)
                  (playerSlot_frame _ e os a _ hps))
                (ih _ _ _ _ _ _ _ _ h)
          · exact frameEq_trans (takeDamage_frame p _) (ih _ _ _ _ _ _ _ _ h)
    · obtain ⟨rfl, -, -, -⟩ := by simpa using h
      exact frameEq_refl p

/-- `add_xp` never touches credits or inventory, and moves `xp` by the
amount minus (on a level-up) the old threshold. -/
theorem addXp_fields (p : Player) (v : ℤ) :
    (addXp p v).credits = p.credits ∧
    (addXp p v).inventory = p.inventory ∧
    (addXp p v).xp =
      (if p.xpToNextLevel ≤ p.xp + v then p.xp + v - p.xpToNextLevel
       else p.xp + v) := by
  unfold addXp
  simp only []
  split_ifs with hx
  · have hs := levelUp_stats { p with xp := p.xp + v }
    exact ⟨hs.2.2.2.2.2.2.2.2.2.2.1, hs.2.2.2.2.2.2.2.2.2.2.2.1,
      hs.2.2.2.2.2.2.2.2.1⟩
  · exact ⟨rfl, rfl, rfl⟩

/-- `add_xp` leaves speed, defense and level unchanged when no level-up
fires, and adds the level-up gains (+1 speed, +2 defense, +1 level)
when one does. -/
theorem addXp_speed_defense (p : Player) (v : ℤ) :
    ((addXp p v).speed = p.speed ∧ (addXp p v).defense = p.defense ∧
      (addXp p v).level = p.level) ∨
    ((addXp p v).speed = p.speed + 1 ∧ (addXp p v).defense = p.defense + 2 ∧
      (addXp p v).level = p.level + 1) := by
  unfold addXp
  simp only []
  split_ifs with hx
  · have hs := levelUp_stats { p with xp := p.xp + v }
    exact Or.inr ⟨hs.2.2.2.2.2.1, hs.2.2.2.2.1, hs.1⟩
  · exact Or.inl ⟨rfl, rfl, rfl⟩

/-- C7 (counterexample): the claim demands that `player.speed` and
`player.defense` at combat exit always equal the entry snapshot. But
`combat_round` applies the snapshot *before* awarding victory XP, and
the XP award can level the player up, permanently adding +1 speed and
+2 defense after the reset: `testPlayer` (speed 10, defense 5) one-shots
`testEnemy` (worth exactly the 50 XP needed for level 2) and exits
combat with speed 11 and defense 7. -/
theorem claim7_counterexample :
    (combatRound 2 testPlayer testEnemy [] [CombatAction.attack]).map
        (fun o => (o.player.speed, o.player.defense)) = some (11, 7) ∧
    testPlayer.speed = 10 ∧ testPlayer.defense = 5 := by
  decide

/-- C7 (amended): whenever `combat_round` exits, the player's speed and
defense equal the values recorded at combat entry — every skill boost
and every equipment delta accumulated during the combat is reverted in
bulk (the equipment itself stays equipped) — *except* that when the
victory XP award triggers a level-up (applied after the reset), the
permanent level-up gains of +1 speed and +2 defense remain on top of
the entry values. -/
theorem claim7_combat_stat_revert (fuel : ℕ) (p : Player) (e : Enemy)
    (os : List Enemy) (script : List CombatAction) (out : CombatOutcome)
    (h : combatRound fuel p e os script = some out) :
    (out.player.speed = p.speed ∧ out.player.defense = p.defense ∧
      out.player.level = p.level) ∨
    (out.player.speed = p.speed + 1 ∧ out.player.defense = p.defense + 2 ∧
      out.player.level = p.level + 1) := by
  unfold combatRound at h
  cases hl : combatLoop fuel p e os script with
  | none => rw [hl] at h; cases h
  | some r =>
    rw [hl] at h
    obtain ⟨p1, e1, os1, fl⟩ := r
    have hf := combatLoop_frame fuel p e os script p1 e1 os1 fl hl
    have hout : out = combatEnd p.speed p.defense p1 e1 os1 fl :=
      (Option.some.inj h).symm
    subst hout
    unfold combatEnd
    simp only []
    split_ifs with h1 h2
    · exact Or.inl ⟨rfl, rfl, hf.1⟩
    · have hsd := addXp_speed_defense
        ({ p1 with speed := p.speed, defense := p.defense } : Player) e1.xpValue
      cases hdrop : e1.itemDrop <;> simp only [hdrop] <;>
        rcases hsd with ⟨hs, hd, hlvl⟩ | ⟨hs, hd, hlvl⟩
      · exact Or.inl ⟨hs, hd, hlvl.trans hf.1⟩
      · exact Or.inr ⟨hs, hd, by rw [hlvl, hf.1]⟩
      · exact Or.inl ⟨hs, hd, hlvl.trans hf.1⟩
      · exact Or.inr ⟨hs, hd, by rw [hlvl, hf.1]⟩
    · exact Or.inl ⟨rfl, rfl, hf.1⟩

/-- C7 (witness): a successful flee on the first action: the exit
restores the entry speed and defense exactly (left disjunct). -/
theorem claim7_witness :
    combatRound 1 testPlayer testEnemy [] [CombatAction.fleeAttempt true] =
      some (combatEnd testPlayer.speed testPlayer.defense testPlayer
        testEnemy [] true) ∧
    (((combatEnd testPlayer.speed testPlayer.defense testPlayer testEnemy []
          true).player.speed = testPlayer.speed ∧
      (combatEnd testPlayer.speed testPlayer.defense testPlayer testEnemy []
          true).player.defense = testPlayer.defense ∧
      (combatEnd testPlayer.speed testPlayer.defense testPlayer testEnemy []
          true).player.level = testPlayer.level) ∨
     ((combatEnd testPlayer.speed testPlayer.defense testPlayer testEnemy []
          true).player.speed = testPlayer.speed + 1 ∧
      (combatEnd testPlayer.speed testPlayer.defense testPlayer testEnemy []
          true).player.defense = testPlayer.defense + 2 ∧
      (combatEnd testPlayer.speed testPlayer.defense testPlayer testEnemy []
          true).player.level = testPlayer.level + 1)) :=
  ⟨by decide,
   claim7_combat_stat_revert 1 testPlayer testEnemy []
     [CombatAction.fleeAttempt true]
     (combatEnd testPlayer.speed testPlayer.defense testPlayer testEnemy [] true)
     (by decide)⟩

/-- C10: no XP, credits, or item drops are ever awarded inside the
combat loop — in particular enemies killed by the Grenade Toss area
effect (other than the engaged one) are pruned from the entity list
with nothing awarded for them. At combat exit, exactly when the engaged
enemy is dead and the player alive, the exit sequence awards that one
enemy's `credit_value`, appends exactly its `item_drop` to the
inventory, applies exactly its `xp_value` through `add_xp`, and prunes
the entity list; on every other exit (death, flee) xp, credits and
inventory are exactly as the loop left them. -/
theorem claim10_rewards_only_engaged (fuel : ℕ) (p : Player) (e : Enemy)
    (os : List Enemy) (script : List CombatAction) (p1 : Player) (e1 : Enemy)
    (os1 : List Enemy) (fl : Bool)
    (h : combatLoop fuel p e os script = some (p1, e1, os1, fl)) :
    p1.xp = p.xp ∧ p1.credits = p.credits ∧
    ((p1.isAlive = true ∧ e1.isAlive = false) →
      (combatEnd p.speed p.defense p1 e1 os1 fl).player.credits =
        p.credits + e1.creditValue ∧
      (combatEnd p.speed p.defense p1 e1 os1 fl).player.inventory =
        p1.inventory ++ e1.itemDrop.toList ∧
      (combatEnd p.speed p.defense p1 e1 os1 fl).player.xp =
        (if p.xpToNextLevel ≤ p.xp + e1.xpValue then
          p.xp + e1.xpValue - p.xpToNextLevel
         else p.xp + e1.xpValue) ∧
      (combatEnd p.speed p.defense p1 e1 os1 fl).entities =
        os1.filter Enemy.isAlive) ∧
    (¬ (p1.isAlive = true ∧ e1.isAlive = false) →
      (combatEnd p.speed p.defense p1 e1 os1 fl).player.credits = p.credits ∧
      (combatEnd p.speed p.defense p1 e1 os1 fl).player.xp = p.xp ∧
      (combatEnd p.speed p.defense p1 e1 os1 fl).player.inventory =
        p1.inventory) := by
  have hf := combatLoop_frame fuel p e os script p1 e1 os1 fl h
  refine ⟨hf.2.1, hf.2.2.1, ?_, ?_⟩
  · rintro ⟨ha, hd⟩
    have hax := addXp_fields
      ({ p1 with speed := p.speed, defense := p.defense } : Player) e1.xpValue
    unfold combatEnd
    simp only []
    rw [if_neg (by
      show ¬ (Player.isAlive { p1 with speed := p.speed, defense := p.defense } = false)
      have : Player.isAlive { p1 with speed := p.speed, defense := p.defense } = true := ha
      simp [this])]
    rw [if_pos (show Enemy.isAlive e1 = false from hd)]
    cases hdrop : e1.itemDrop <;> simp only [hdrop] <;>
      refine ⟨?_, ?_, ?_, by simp⟩
    · rw [show (addXp { p1 with speed := p.speed, defense := p.defense }
          e1.xpValue).credits + e1.creditValue =
          (addXp { p1 with speed := p.speed, defense := p.defense }
            e1.xpValue).credits + e1.creditValue from rfl, hax.1]
      simp [hf.2.2.1]
    · simp [hax.2.1, hf]
    · rw [show (addXp { p1 with speed := p.speed, defense := p.defense }
          e1.xpValue).xp =
          (addXp { p1 with speed := p.speed, defense := p.defense }
            e1.xpValue).xp from rfl, hax.2.2]
      simp only []
      rw [show ({ p1 with speed := p.speed, defense := p.defense } :
            Player).xpToNextLevel = p1.xpToNextLevel from rfl,
          show ({ p1 with speed := p.speed, defense := p.defense } :
            Player).xp = p1.xp from rfl, hf.2.1, hf.2.2.2]
    · rw [show (addXp { p1 with speed := p.speed, defense := p.defense }
          e1.xpValue).credits + e1.creditValue =
          (addXp { p1 with speed := p.speed, defense := p.defense }
            e1.xpValue).credits + e1.creditValue from rfl, hax.1]
      simp [hf.2.2.1]
    · simp [hax.2.1, hf]
    · rw [show (addXp { p1 with speed := p.speed, defense := p.defense }
          e1.xpValue).xp =
          (addXp { p1 with speed := p.speed, defense := p.defense }
            e1.xpValue).xp from rfl, hax.2.2]
      simp only []
      rw [show ({ p1 with speed := p.speed, defense := p.defense } :
            Player).xpToNextLevel = p1.xpToNextLevel from rfl,
          show ({ p1 with speed := p.speed, defense := p.defense } :
            Player).xp = p1.xp from rfl, hf.2.1, hf.2.2.2]
  · intro hnv
    unfold combatEnd
    simp only []
    split_ifs with h1 h2
    · exact ⟨hf.2.2.1, hf.2.1, rfl⟩
    · exact absurd ⟨by simpa using h1, h2⟩ hnv
    · exact ⟨hf.2.2.1, hf.2.1, rfl⟩

/-- C10 (witness): `testPlayer` one-shots `testEnemy` (5 credits, no
drop): no credits or xp moved during the loop, and the exit awards
exactly the engaged enemy's 5 credits. -/
theorem claim10_witness :
    combatLoop 2 testPlayer testEnemy [] [CombatAction.attack] =
      some (testPlayer,
        testEnemy.takeDamage (attackDamage testPlayer.attack testEnemy.defense),
        [], false) ∧
    (combatEnd testPlayer.speed testPlayer.defense testPlayer
        (testEnemy.takeDamage (attackDamage testPlayer.attack testEnemy.defense))
        [] false).player.credits =
      testPlayer.credits +
        (testEnemy.takeDamage
          (attackDamage testPlayer.attack testEnemy.defense)).creditValue :=
  ⟨by decide,
   ((claim10_rewards_only_engaged 2 testPlayer testEnemy []
      [CombatAction.attack] testPlayer
      (testEnemy.takeDamage (attackDamage testPlayer.attack testEnemy.defense))
      [] false (by decide)).2.2.1 (by decide)).1⟩

/-- `random.choice` picks an element of a nonempty pool. -/
theorem choosePos_mem (pool : List Pos) (r : ℕ) (h : pool ≠ []) :
    choosePos pool r ∈ pool := by
  have hlt : r % pool.length < pool.length :=
    Nat.mod_lt _ (List.length_pos.mpr h)
  unfold choosePos
  rw [List.getD_eq_getElem _ _ hlt]
  exact List.getElem_mem _

/-- One draw-and-remove step satisfies the placement invariant. -/
theorem pick_placeInv (pool : List Pos) (r : ℕ) (hnd : pool.Nodup)
    (hne : pool ≠ []) :
    PlaceInv pool [choosePos pool r] (pool.erase (choosePos pool r)) := by
  refine ⟨List.nodup_singleton _, hnd.erase _, ?_, ?_⟩
  · intro q hq
    rw [List.mem_singleton] at hq
    subst hq
    exact ⟨choosePos_mem pool r hne, hnd.not_mem_erase⟩
  · intro q hq
    exact List.mem_of_mem_erase hq

/-- Not placing anything keeps the invariant. -/
theorem placeInv_nil (pool : List Pos) (hnd : pool.Nodup) :
    PlaceInv pool [] pool :=
  ⟨List.nodup_nil, hnd, by simp, fun _ hq => hq⟩

/-- Placement stages compose. -/
theorem placeInv_trans {P Q R : List Pos} {a b : List Pos}
    (h1 : PlaceInv P a Q) (h2 : PlaceInv Q b R) : PlaceInv P (a ++ b) R := by
  obtain ⟨ha, hQ, hmem1, hsub1⟩ := h1
  obtain ⟨hb, hR, hmem2, hsub2⟩ := h2
  refine ⟨ha.append hb ?_, hR, ?_, fun q hq => hsub1 q (hsub2 q hq)⟩
  · intro q hqa hqb
    exact (hmem1 q hqa).2 ((hmem2 q hqb).1)
  · intro q hq
    rcases List.mem_append.mp hq with hqa | hqb
    · refine ⟨(hmem1 q hqa).1, fun hqR => (hmem1 q hqa).2 (hsub2 q hqR)⟩
    · exact ⟨hsub1 q (hmem2 q hqb).1, (hmem2 q hqb).2⟩

/-- The trap/enemy/item loops satisfy the placement invariant. -/
theorem placeMany_placeInv (n : ℕ) :
    ∀ (pool : List Pos) (rng : List ℕ), pool.Nodup →
      PlaceInv pool (placeMany n pool rng).1 (placeMany n pool rng).2.1 := by
  induction n with
  | zero => intro pool rng hnd; exact placeInv_nil pool hnd
  | succ m ih =>
    intro pool rng hnd
    unfold placeMany
    split_ifs with hp
    · exact placeInv_nil pool hnd
    · simp only []
      exact placeInv_trans (pick_placeInv pool (rng.headD 0) hnd hp)
        (ih (pool.erase (choosePos pool (rng.headD 0))) rng.tail (hnd.erase _))

/-- The crystal loop satisfies the placement invariant. -/
theorem placeCrystals_placeInv (n : ℕ) :
    ∀ (pool : List Pos) (rng : List ℕ) (coins : List Bool), pool.Nodup →
      PlaceInv pool (placeCrystals n pool rng coins).1
        (placeCrystals n pool rng coins).2 := by
  induction n with
  | zero => intro pool rng coins hnd; exact placeInv_nil pool hnd
  | succ m ih =>
    intro pool rng coins hnd
    unfold placeCrystals
    split_ifs with hp hcoin
    · exact placeInv_nil pool hnd
    · simp only []
      exact placeInv_trans (pick_placeInv pool (rng.headD 0) hnd hp)
        (ih (pool.erase (choosePos pool (rng.headD 0))) rng.tail coins.tail
          (hnd.erase _))
    · exact ih pool rng coins.tail hnd

/-- The exit retry loop places one tile from the pool. -/
theorem placeExit_placeInv (w h : ℕ) (s : Pos) (fuel : ℕ) :
    ∀ (pool : List Pos) (rng : List ℕ) (e : Pos) (pool2 : List Pos)
      (rng2 : List ℕ), pool.Nodup →
      placeExit w h s fuel pool rng = some (e, pool2, rng2) →
      PlaceInv pool [e] pool2 := by
  induction fuel with
  | zero => intro pool rng e pool2 rng2 hnd hx; simp [placeExit] at hx
  | succ m ih =>
    intro pool rng e pool2 rng2 hnd hx
    unfold placeExit at hx
    simp only [] at hx
    split_ifs at hx with hp hsep
    · obtain ⟨rfl, rfl, -⟩ := by
        simpa only [Option.some.injEq, Prod.mk.injEq] using hx
      exact pick_placeInv pool (rng.headD 0) hnd hp
    · exact ih pool rng.tail e pool2 rng2 hnd hx

/-- The shop retry loop places one tile from the pool. -/
theorem placeShop_placeInv (s x : Pos) (fuel : ℕ) :
    ∀ (pool : List Pos) (rng : List ℕ) (sh : Pos) (pool2 : List Pos)
      (rng2 : List ℕ), pool.Nodup →
      placeShop s x fuel pool rng = some (sh, pool2, rng2) →
      PlaceInv pool [sh] pool2 := by
  induction fuel with
  | zero => intro pool rng sh pool2 rng2 hnd hx; simp [placeShop] at hx
  | succ m ih =>
    intro pool rng sh pool2 rng2 hnd hx
    unfold placeShop at hx
    simp only [] at hx
    split_ifs at hx with hp hok
    · obtain ⟨rfl, rfl, -⟩ := by
        simpa only [Option.some.injEq, Prod.mk.injEq] using hx
      exact pick_placeInv pool (rng.headD 0) hnd hp
    · exact ih pool rng.tail sh pool2 rng2 hnd hx

/-- The optional shop stage places zero or one tiles from the pool. -/
theorem placeShopOpt_placeInv (wantShop : Bool) (s x : Pos) (fuel : ℕ)
    (pool : List Pos) (rng : List ℕ) (shopLoc : Option Pos)
    (pool2 : List Pos) (rng2 : List ℕ) (hnd : pool.Nodup)
    (hx : placeShopOpt wantShop s x fuel pool rng = some (shopLoc, pool2, rng2)) :
    PlaceInv pool shopLoc.toList pool2 := by
  unfold placeShopOpt at hx
  split_ifs at hx with hws
  · obtain ⟨y, hy, hmap⟩ := Option.map_eq_some'.mp hx
    obtain ⟨sh1, pl1, rn1⟩ := y
    obtain ⟨rfl, rfl, -⟩ := by
      simpa only [Option.some.injEq, Prod.mk.injEq] using hmap
    simpa [Option.toList] using
      placeShop_placeInv s x fuel pool rng sh1 pl1 rn1 hnd hy
  · obtain ⟨rfl, rfl, -⟩ := by
      simpa only [Option.some.injEq, Prod.mk.injEq] using hx
    simpa [Option.toList] using placeInv_nil pool hnd

/-- The whole of step 3 places pairwise-distinct tiles drawn from the
initial pool. -/
theorem placeFeatures_placeInv (width height : ℕ) (pool0 : List Pos)
    (wantShop : Bool) (nTraps nEnemies nItems nCrystalTries fuel : ℕ)
    (rng : List ℕ) (coins : List Bool) (f : Features)
    (hnd : pool0.Nodup)
    (hf : placeFeatures width height pool0 wantShop nTraps nEnemies nItems
      nCrystalTries fuel rng coins = some f) :
    f.allPositions.Nodup ∧ ∀ q ∈ f.allPositions, q ∈ pool0 := by
  unfold placeFeatures at hf
  split_ifs at hf with hp
  · simp only [] at hf
    split at hf
    · cases hf
    · rename_i exitLoc pool2 rng2 hexit
      split at hf
      · cases hf
      · rename_i shopLoc pool3 rng3 hshop
        have hInv0 : PlaceInv pool0 [choosePos pool0 (rng.headD 0)]
            (pool0.erase (choosePos pool0 (rng.headD 0))) :=
          pick_placeInv pool0 (rng.headD 0) hnd hp
        have hInv1 : PlaceInv (pool0.erase (choosePos pool0 (rng.headD 0)))
            [exitLoc] pool2 :=
          placeExit_placeInv width height (choosePos pool0 (rng.headD 0)) fuel
            _ rng.tail exitLoc pool2 rng2 hInv0.2.1 hexit
        have hInvShop : PlaceInv pool2 shopLoc.toList pool3 :=
          placeShopOpt_placeInv wantShop (choosePos pool0 (rng.headD 0)) exitLoc
            fuel pool2 rng2 shopLoc pool3 rng3 hInv1.2.1 hshop
        have hInvT := placeMany_placeInv nTraps pool3 rng3 hInvShop.2.1
        have hInvE := placeMany_placeInv nEnemies
          (placeMany nTraps pool3 rng3).2.1
          (placeMany nTraps pool3 rng3).2.2 hInvT.2.1
        have hInvI := placeMany_placeInv nItems
          (placeMany nEnemies (placeMany nTraps pool3 rng3).2.1
            (placeMany nTraps pool3 rng3).2.2).2.1
          (placeMany nEnemies (placeMany nTraps pool3 rng3).2.1
            (placeMany nTraps pool3 rng3).2.2).2.2 hInvE.2.1
        have hInvC := placeCrystals_placeInv nCrystalTries
          (placeMany nItems
            (placeMany nEnemies (placeMany nTraps pool3 rng3).2.1
              (placeMany nTraps pool3 rng3).2.2).2.1
            (placeMany nEnemies (placeMany nTraps pool3 rng3).2.1
              (placeMany nTraps pool3 rng3).2.2).2.2).2.1
          (placeMany nItems
            (placeMany nEnemies (placeMany nTraps pool3 rng3).2.1
              (placeMany nTraps pool3 rng3).2.2).2.1
            (placeMany nEnemies (placeMany nTraps pool3 rng3).2.1
              (placeMany nTraps pool3 rng3).2.2).2.2).2.2
          coins hInvI.2.1
        have hAll := placeInv_trans hInv0 (placeInv_trans hInv1
          (placeInv_trans hInvShop (placeInv_trans hInvT
            (placeInv_trans hInvE (placeInv_trans hInvI hInvC)))))
        obtain rfl := Option.some.inj hf
        constructor
        · simpa [Features.allPositions, List.append_assoc] using hAll.1
        · intro q hq
          refine (hAll.2.2.1 q ?_).1
          simpa [Features.allPositions, List.append_assoc, or_assoc] using hq

/-- The members of the scanned pool are exactly the in-range positions
whose tile is the floor character. -/
theorem mem_emptyTilesOf (w h : ℕ) (tile : ℕ → ℕ → Char) (q : Pos) :
    q ∈ emptyTilesOf w h tile ↔ q.1 < w ∧ q.2 < h ∧ tile q.1 q.2 = '.' := by
  obtain ⟨x, y⟩ := q
  simp only [emptyTilesOf, List.mem_flatMap, List.mem_range, List.mem_filterMap]
  constructor
  · rintro ⟨y2, hy2, x2, hx2, hsome⟩
    split_ifs at hsome with ht
    · obtain ⟨rfl, rfl⟩ := by
        simpa only [Option.some.injEq, Prod.mk.injEq] using hsome
      exact ⟨hx2, hy2, ht⟩
  · rintro ⟨h1, h2, h3⟩
    exact ⟨y, h2, x, h1, by simp [h3]⟩

/-- The row-by-row scan collects each position at most once. -/
theorem emptyTilesOf_nodup (w h : ℕ) (tile : ℕ → ℕ → Char) :
    (emptyTilesOf w h tile).Nodup := by
  have hsnd : ∀ (y : ℕ) (q : Pos),
      q ∈ (List.range w).filterMap
        (fun x => if tile x y = '.' then some (x, y) else none) → q.2 = y := by
    intro y q hq
    simp only [List.mem_filterMap, List.mem_range] at hq
    obtain ⟨x, -, hx⟩ := hq
    split_ifs at hx
    cases hx
    rfl
  unfold emptyTilesOf
  rw [List.nodup_flatMap]
  constructor
  · intro y _
    refine List.Nodup.filterMap ?_ (List.nodup_range w)
    intro a a' b hb hb'
    rw [Option.mem_def] at hb hb'
    split_ifs at hb hb'
    exact ((Prod.mk.injEq _ _ _ _).mp
      (Option.some.inj (hb.trans hb'.symm))).1
  · refine List.Pairwise.imp ?_ (List.pairwise_lt_range h)
    intro a b hab q hqa hqb
    have h1 := hsnd a q hqa
    have h2 := hsnd b q hqb
    omega

/-- C3: on every floor that feature placement completes, the player
start, the exit, the shop (when present), every trap key, every enemy
position, and every `items_on_map` key (items and crystals) are
pairwise distinct, and each of them is a position whose tile was carved
as floor before feature placement began. -/
theorem claim3_feature_tiles_distinct (width height : ℕ)
    (tile : ℕ → ℕ → Char) (wantShop : Bool)
    (nTraps nEnemies nItems nCrystalTries fuel : ℕ) (rng : List ℕ)
    (coins : List Bool) (f : Features)
    (hf : placeFeatures width height (emptyTilesOf width height tile) wantShop
      nTraps nEnemies nItems nCrystalTries fuel rng coins = some f) :
    f.allPositions.Nodup ∧ ∀ q ∈ f.allPositions, tile q.1 q.2 = '.' := by
  have h := placeFeatures_placeInv width height (emptyTilesOf width height tile)
    wantShop nTraps nEnemies nItems nCrystalTries fuel rng coins f
    (emptyTilesOf_nodup width height tile) hf
  exact ⟨h.1, fun q hq =>
    ((mem_emptyTilesOf width height tile q).mp (h.2 q hq)).2.2⟩

/-- C3 (witness): an 8-by-1 all-floor strip, placing the start, an
exit (respecting the separation), one trap, one enemy and one crystal:
the five placed tiles are pairwise distinct floor tiles. -/
theorem claim3_witness :
    placeFeatures 8 1 (emptyTilesOf 8 1 fun _ _ => '.') false 1 1 0 1 2
        [0, 2] [true] = some testFeatures ∧
    testFeatures.allPositions = [(0, 0), (3, 0), (1, 0), (2, 0), (4, 0)] ∧
    testFeatures.allPositions.Nodup :=
  ⟨by decide, by decide,
   (claim3_feature_tiles_distinct 8 1 (fun _ _ => '.') false 1 1 0 1 2
     [0, 2] [true] testFeatures (by decide)).1⟩

theorem adjacentPos_symm {p q : Pos} (h : adjacentPos p q) : adjacentPos q p := by
  rcases h with ⟨h1, h2⟩ | ⟨h1, h2⟩
  · exact Or.inl ⟨h1.symm, h2.symm⟩
  · exact Or.inr ⟨h1.symm, h2.symm⟩

theorem stepIn_symm (S : Pos → Prop) : Symmetric (stepIn S) :=
  fun _ _ h => ⟨h.2.1, h.1, adjacentPos_symm h.2.2⟩

theorem reachIn_symm {S : Pos → Prop} {p q : Pos} (h : reachIn S p q) :
    reachIn S q p :=
  Relation.ReflTransGen.symmetric (stepIn_symm S) h

theorem reachIn_mono {S T : Pos → Prop} (hsub : ∀ q, S q → T q) {p q : Pos}
    (h : reachIn S p q) : reachIn T p q :=
  Relation.ReflTransGen.mono
    (fun a b hab => ⟨hsub a hab.1, hsub b hab.2.1, hab.2.2⟩) h

/-- Walking right along a fully-carved row. -/
theorem reach_row (S : Pos → Prop) (y a : ℕ) :
    ∀ b, a ≤ b → (∀ x, a ≤ x → x ≤ b → S (x, y)) → reachIn S (a, y) (b, y) := by
  intro b hab
  induction b, hab using Nat.le_induction with
  | base => intro _; exact Relation.ReflTransGen.refl
  | succ n hn ihn =>
    intro hS
    refine Relation.ReflTransGen.tail
      (ihn fun x hx1 hx2 => hS x hx1 (by omega)) ?_
    exact ⟨hS n hn (by omega), hS (n + 1) (by omega) (by omega),
      Or.inr ⟨rfl, Or.inl rfl⟩⟩

/-- Walking down along a fully-carved column. -/
theorem reach_col (S : Pos → Prop) (x a : ℕ) :
    ∀ b, a ≤ b → (∀ y, a ≤ y → y ≤ b → S (x, y)) → reachIn S (x, a) (x, b) := by
  intro b hab
  induction b, hab using Nat.le_induction with
  | base => intro _; exact Relation.ReflTransGen.refl
  | succ n hn ihn =>
    intro hS
    refine Relation.ReflTransGen.tail
      (ihn fun y hy1 hy2 => hS y hy1 (by omega)) ?_
    exact ⟨hS n hn (by omega), hS (n + 1) (by omega) (by omega),
      Or.inl ⟨rfl, Or.inl rfl⟩⟩

/-- A horizontal segment whose tiles are all in `S` connects its two
end columns, in either order. -/
theorem reach_seg_h (S : Pos → Prop) (y u v : ℕ)
    (hS : ∀ x, min u v ≤ x → x ≤ max u v → S (x, y)) :
    reachIn S (u, y) (v, y) := by
  rcases le_total u v with h | h
  · exact reach_row S y u v h fun x h1 h2 => hS x (by omega) (by omega)
  · exact reachIn_symm (reach_row S y v u h fun x h1 h2 => hS x (by omega) (by omega))

/-- A vertical segment whose tiles are all in `S` connects its two end
rows, in either order. -/
theorem reach_seg_v (S : Pos → Prop) (x u v : ℕ)
    (hS : ∀ y, min u v ≤ y → y ≤ max u v → S (x, y)) :
    reachIn S (x, u) (x, v) := by
  rcases le_total u v with h | h
  · exact reach_col S x u v h fun y h1 h2 => hS y (by omega) (by omega)
  · exact reachIn_symm (reach_col S x v u h fun y h1 h2 => hS y (by omega) (by omega))

/-- A room of positive extent contains its center tile. -/
theorem center_inRoom (r : Room) (hv : r.x1 < r.x2 ∧ r.y1 < r.y2) :
    inRoom r (r.centerX, r.centerY) := by
  unfold inRoom Room.centerX Room.centerY
  simp only
  omega

/-- Every tile of a room is reachable from the room's center inside
any region containing the room. -/
theorem room_reach (r : Room) (S : Pos → Prop)
    (hv : r.x1 < r.x2 ∧ r.y1 < r.y2) (hS : ∀ q, inRoom r q → S q)
    (p : Pos) (hp : inRoom r p) : reachIn S (r.centerX, r.centerY) p := by
  have hc := center_inRoom r hv
  have h1 : reachIn S (r.centerX, r.centerY) (p.1, r.centerY) := by
    apply reach_seg_h
    intro x hx1 hx2
    apply hS
    unfold inRoom at hc hp ⊢
    omega
  have h2 : reachIn S (p.1, r.centerY) (p.1, p.2) := by
    apply reach_seg_v
    intro yy hy1 hy2
    apply hS
    unfold inRoom at hc hp ⊢
    omega
  exact Relation.ReflTransGen.trans h1 h2

/-- Every tile of the L-corridor between two room centers is reachable
from the first room's center inside any region containing the
corridor; in particular so is the second room's center. -/
theorem corridor_reach_point (r1 r2 : Room) (S : Pos → Prop)
    (hS : ∀ q, inCorridor r1 r2 q → S q) (p : Pos)
    (hp : inCorridor r1 r2 p) :
    reachIn S (r1.centerX, r1.centerY) p := by
  rcases hp with ⟨hy, hx1, hx2⟩ | ⟨hx, hy1, hy2⟩
  · have h1 : reachIn S (r1.centerX, r1.centerY) (p.1, r1.centerY) := by
      apply reach_seg_h
      intro x hxa hxb
      exact hS _ (Or.inl ⟨rfl, by omega, by omega⟩)
    have h3 : (p.1, r1.centerY) = p := by rw [← hy]
    exact h3 ▸ h1
  · have h1 : reachIn S (r1.centerX, r1.centerY) (r2.centerX, r1.centerY) := by
      apply reach_seg_h
      intro x hxa hxb
      exact hS _ (Or.inl ⟨rfl, by omega, by omega⟩)
    have h2 : reachIn S (r2.centerX, r1.centerY) (r2.centerX, p.2) := by
      apply reach_seg_v
      intro yy hya hyb
      exact hS _ (Or.inr ⟨rfl, by omega, by omega⟩)
    have h3 : (r2.centerX, p.2) = p := by rw [← hx]
    exact h3 ▸ Relation.ReflTransGen.trans h1 h2

theorem consecutivePairs_cons (r0 r1 : Room) (rest : List Room) :
    consecutivePairs (r0 :: r1 :: rest) =
      (r0, r1) :: consecutivePairs (r1 :: rest) := rfl

/-- Dropping the first room only shrinks the carved region. -/
theorem carved_sub (r0 r1 : Room) (rest : List Room) (p : Pos)
    (h : carved (r1 :: rest) p) : carved (r0 :: r1 :: rest) p := by
  rcases h with ⟨r, hr, hp⟩ | ⟨pr, hpr, hp⟩
  · exact Or.inl ⟨r, List.mem_cons_of_mem r0 hr, hp⟩
  · refine Or.inr ⟨pr, ?_, hp⟩
    rw [consecutivePairs_cons]
    exact List.mem_cons_of_mem _ hpr

/-- Every carved tile of a nonempty room chain is reachable from the
first room's center within the carved region. -/
theorem carved_reach_head : ∀ (rest : List Room) (r0 : Room),
    (∀ r ∈ r0 :: rest, r.x1 < r.x2 ∧ r.y1 < r.y2) →
    ∀ p, carved (r0 :: rest) p →
      reachIn (carved (r0 :: rest)) (r0.centerX, r0.centerY) p := by
  intro rest
  induction rest with
  | nil =>
    intro r0 hv p hp
    rcases hp with ⟨r, hr, hrp⟩ | ⟨pr, hpr, -⟩
    · rcases List.mem_singleton.mp hr with rfl
      exact room_reach r _ (hv r (by simp))
        (fun q hq => Or.inl ⟨r, by simp, hq⟩) p hrp
    · simp [consecutivePairs] at hpr
  | cons r1 rest ih =>
    intro r0 hv p hp
    have hvr0 := hv r0 (by simp)
    have hv1 : ∀ r ∈ r1 :: rest, r.x1 < r.x2 ∧ r.y1 < r.y2 :=
      fun r hr => hv r (List.mem_cons_of_mem r0 hr)
    have hsub : ∀ q, carved (r1 :: rest) q → carved (r0 :: r1 :: rest) q :=
      carved_sub r0 r1 rest
    have hcorr : ∀ q, inCorridor r0 r1 q → carved (r0 :: r1 :: rest) q := by
      intro q hq
      refine Or.inr ⟨(r0, r1), ?_, hq⟩
      rw [consecutivePairs_cons]
      exact List.mem_cons_self _ _
    have hroom0 : ∀ q, inRoom r0 q → carved (r0 :: r1 :: rest) q :=
      fun q hq => Or.inl ⟨r0, by simp, hq⟩
    have hhop : reachIn (carved (r0 :: r1 :: rest)) (r0.centerX, r0.centerY)
        (r1.centerX, r1.centerY) :=
      corridor_reach_point r0 r1 _ hcorr _ (Or.inr ⟨rfl, by omega, by omega⟩)
    rcases hp with ⟨r, hr, hrp⟩ | ⟨pr, hpr, hprp⟩
    · rcases List.mem_cons.mp hr with rfl | hr'
      · exact room_reach r _ hvr0 hroom0 p hrp
      · have hp' : carved (r1 :: rest) p := Or.inl ⟨r, hr', hrp⟩
        exact Relation.ReflTransGen.trans hhop
          (reachIn_mono hsub (ih r1 hv1 p hp'))
    · rw [consecutivePairs_cons] at hpr
      rcases List.mem_cons.mp hpr with rfl | hpr'
      · exact corridor_reach_point r0 r1 _ hcorr p hprp
      · have hp' : carved (r1 :: rest) p := Or.inr ⟨pr, hpr', hprp⟩
        exact Relation.ReflTransGen.trans hhop
          (reachIn_mono hsub (ih r1 hv1 p hp'))

/-- C2: on every floor `generate_map` carves — any accepted-room list
whose rooms have positive extent (the generator draws widths and
heights in `[ROOM_MIN_SIZE, ROOM_MAX_SIZE] = [5, 10]`, so `x1 < x2`
and `y1 < y2` always hold), for any RNG stream — every carved floor
tile is reachable from `player_start` (itself a carved tile, being
drawn from the carved-tile pool) by 4-directional moves through carved
tiles: the L-corridors between consecutive rooms link the whole chain
into one connected component. -/
theorem claim2_floor_connected (rs : List Room)
    (hv : ∀ r ∈ rs, r.x1 < r.x2 ∧ r.y1 < r.y2)
    (playerStart p : Pos) (hs : carved rs playerStart)
    (hp : carved rs p) : reachableOnMap rs playerStart p := by
  cases rs with
  | nil =>
    rcases hs with ⟨r, hr, -⟩ | ⟨pr, hpr, -⟩ <;> simp_all [consecutivePairs]
  | cons r0 rest =>
    have h1 := carved_reach_head rest r0 hv playerStart hs
    have h2 := carved_reach_head rest r0 hv p hp
    exact Relation.ReflTransGen.trans (reachIn_symm h1) h2

/-- C2 (witness): a single 4-by-4 room with corner `(1,1)`: the tile
`(2,2)` is reachable from a start at `(1,1)`. -/
theorem claim2_witness :
    (∀ r ∈ [Room.mk 1 1 5 5], r.x1 < r.x2 ∧ r.y1 < r.y2) ∧
    carved [Room.mk 1 1 5 5] (1, 1) ∧ carved [Room.mk 1 1 5 5] (2, 2) ∧
    reachableOnMap [Room.mk 1 1 5 5] (1, 1) (2, 2) :=
  ⟨by decide, by decide, by decide,
   claim2_floor_connected [Room.mk 1 1 5 5] (by decide) (1, 1) (2, 2)
     (by decide) (by decide)⟩

end Xylos
